import Mathlib

/-!
Verification of the blackjack table engine (`app/game/blackjack_logic.py`).

The engine is embedded shallowly: the Python class `Blackjack` becomes a
`GameState` structure, every method becomes a pure Lean function threading
the state explicitly.  Python dictionaries (which preserve insertion order)
become association lists; the wallet store's distinguished last-reset-date
key becomes the `last_reset` field; the current local date (derived from the
wall clock in Python) and the freshly shuffled deck produced by
`random.shuffle` become explicit parameters.
-/

namespace BJ

abbrev UserId := String

inductive Suit where
  | hearts | diamonds | clubs | spades
deriving DecidableEq, Repr

inductive Rank where
  | r2 | r3 | r4 | r5 | r6 | r7 | r8 | r9 | r10
  | jack | queen | king | ace
deriving DecidableEq, Repr

structure Card where
  suit : Suit
  rank : Rank
deriving DecidableEq, Repr

inductive Status where
  | playing | stand | bust | fold | ready
deriving DecidableEq, Repr

/-- Per-player state: the value dictionary stored in `self.users[user_id]`. -/
structure PlayerState where
  hand : List Card
  score : Nat
  status : Status
  coins : Int
  bet : Int
  has_raised : Bool
  is_folded : Bool
  natural_bonus : Int
deriving DecidableEq, Repr

/-- Whole-table state: the attributes of one `Blackjack` instance.  The
wallet store's entries are the non-meta keys of `self.wallet_store`; the
meta key `__last_reset_date__` is the `last_reset` field (dates are
coded as natural numbers, ordered as calendar dates are). -/
structure GameState where
  deck : List Card
  users : List (UserId × PlayerState)
  pot : Int
  current_raise : Int
  initial_coins : Int
  wallet_store : List (UserId × Int)
  last_reset : Option Nat
deriving DecidableEq, Repr

/-- Ordered-dictionary lookup (Python `d[k]` / `k in d`). -/
def alookup {α : Type} : List (String × α) → String → Option α
  | [], _ => none
  | (k, v) :: rest, key => if k = key then some v else alookup rest key

/-- Ordered-dictionary update: `d[k] = v` updates in place when the key is
present and appends at the end otherwise, exactly as a Python dict does. -/
def aset {α : Type} : List (String × α) → String → α → List (String × α)
  | [], key, v => [(key, v)]
  | (k, w) :: rest, key, v =>
      if k = key then (k, v) :: rest else (k, w) :: aset rest key v

@[simp] theorem alookup_nil {α : Type} (key : String) :
    alookup ([] : List (String × α)) key = none := rfl

@[simp] theorem alookup_cons {α : Type} (k : String) (v : α) (rest : List (String × α)) (key : String) :
    alookup ((k, v) :: rest) key = if k = key then some v else alookup rest key := rfl

@[simp] theorem aset_nil {α : Type} (key : String) (v : α) :
    aset ([] : List (String × α)) key v = [(key, v)] := rfl

@[simp] theorem aset_cons {α : Type} (k : String) (w : α) (rest : List (String × α)) (key : String) (v : α) :
    aset ((k, w) :: rest) key v =
      if k = key then (k, v) :: rest else (k, w) :: aset rest key v := rfl

theorem alookup_aset {α : Type} (l : List (String × α)) (key : String) (v : α) :
    alookup (aset l key v) key = some v := by
  induction l with
  | nil => simp [aset, alookup]
  | cons hd tl ih =>
    obtain ⟨k, w⟩ := hd
    by_cases h : k = key <;> simp [aset, alookup, h, ih]

theorem alookup_aset_ne {α : Type} (l : List (String × α)) (key other : String) (v : α)
    (h : other ≠ key) :
    alookup (aset l key v) other = alookup l other := by
  induction l with
  | nil =>
    have : ¬key = other := fun hh => h hh.symm
    simp [aset, alookup, this]
  | cons hd tl ih =>
    obtain ⟨k, w⟩ := hd
    by_cases hk : k = key
    · subst hk
      have : ¬k = other := fun hh => h hh.symm
      simp [aset, alookup, this]
    · simp [aset, alookup, hk]
      by_cases hko : k = other <;> simp [hko, ih]

theorem aset_self {α : Type} (l : List (String × α)) (key : String) (v : α)
    (h : alookup l key = some v) : aset l key v = l := by
  induction l with
  | nil => simp [alookup] at h
  | cons hd tl ih =>
    obtain ⟨k, w⟩ := hd
    by_cases hk : k = key
    · subst hk
      simp [alookup] at h
      simp [aset, h]
    · simp [alookup, hk] at h
      simp [aset, hk, ih h]

theorem aset_keys {α : Type} (l : List (String × α)) (key : String) (v : α)
    (h : (alookup l key).isSome) :
    (aset l key v).map Prod.fst = l.map Prod.fst := by
  induction l with
  | nil => simp [alookup] at h
  | cons hd tl ih =>
    obtain ⟨k, w⟩ := hd
    by_cases hk : k = key
    · simp [aset, hk]
    · simp [alookup, hk] at h
      simp [aset, hk, ih h]

/-! ### Card values and scoring (`update_score`) -/

/-- Point value a card contributes before Ace reduction: face cards are 10,
an Ace is initially 11, number cards their number. -/
def card_score_value : Rank → Nat
  | Rank.r2 => 2 | Rank.r3 => 3 | Rank.r4 => 4 | Rank.r5 => 5 | Rank.r6 => 6
  | Rank.r7 => 7 | Rank.r8 => 8 | Rank.r9 => 9 | Rank.r10 => 10
  | Rank.jack => 10 | Rank.queen => 10 | Rank.king => 10 | Rank.ace => 11

/-- The accumulation loop of `update_score` before the Ace-reduction loop. -/
def rawScore (hand : List Card) : Nat :=
  (hand.map (fun c => card_score_value c.rank)).sum

/-- Number of Aces in a hand (`ace_count` in `update_score`). -/
def aceCount (hand : List Card) : Nat :=
  (hand.filter (fun c => c.rank = Rank.ace)).length

/-- The `while score > 21 and ace_count:` loop of `update_score`: subtract 10
once per remaining flexible Ace while the score exceeds 21. -/
def reduceScore : Nat → Nat → Nat
  | s, 0 => s
  | s, n + 1 => if 21 < s then reduceScore (s - 10) n else s

/-- Final score `update_score` stores for a hand. -/
def scoreOfHand (hand : List Card) : Nat :=
  reduceScore (rawScore hand) (aceCount hand)

/-- Python `update_score`: recompute the player's score from their hand; on a
final score above 21 the status becomes `bust` and `is_folded` is set. -/
def update_score (st : GameState) (uid : UserId) : GameState :=
  match alookup st.users uid with
  | none => st
  | some p =>
    let s := scoreOfHand p.hand
    let p1 := { p with score := s }
    let p2 := if 21 < s then { p1 with status := Status.bust, is_folded := true } else p1
    { st with users := aset st.users uid p2 }

/-! ### Wallet management -/

/-- Python `_wallet_entry`: lazily create the wallet record for a user. -/
def ensure_wallet (st : GameState) (uid : UserId) : GameState :=
  if (alookup st.wallet_store uid).isSome then st
  else { st with wallet_store := aset st.wallet_store uid st.initial_coins }

/-- Python `_get_coins`: read the wallet balance (lazily initializing the
entry) and mirror it into the per-table user state when the user is seated. -/
def get_coins (st : GameState) (uid : UserId) : Int × GameState :=
  let st1 := ensure_wallet st uid
  let c := (alookup st1.wallet_store uid).getD st.initial_coins
  match alookup st1.users uid with
  | none => (c, st1)
  | some p => (c, { st1 with users := aset st1.users uid { p with coins := c } })

/-- Python `_set_coins`: write the balance to the wallet and to the seated
user's mirror. -/
def set_coins (st : GameState) (uid : UserId) (amount : Int) : GameState :=
  let st1 := { st with wallet_store := aset st.wallet_store uid amount }
  match alookup st1.users uid with
  | none => st1
  | some p => { st1 with users := aset st1.users uid { p with coins := amount } }

/-- Python `_adjust_coins`. -/
def adjust_coins (st : GameState) (uid : UserId) (delta : Int) : Int × GameState :=
  let gc := get_coins st uid
  (gc.1 + delta, set_coins gc.2 uid (gc.1 + delta))

/-- Observable wallet balance of a user: the stored entry, or the lazy-init
default for an unseen user.  `get_coins` always returns exactly this value. -/
def walletOf (st : GameState) (uid : UserId) : Int :=
  (alookup st.wallet_store uid).getD st.initial_coins

/-- Python `check_and_reset_coins`, with the current local date (UTC plus the
configured offset) passed explicitly: when no reset date is stored or the
current date is later, every wallet balance and every seated mirror of a
tracked user is set to `initial_coins` and the date is recorded. -/
def check_and_reset_coins (d : Nat) (st : GameState) : GameState :=
  let fire := match st.last_reset with
    | none => true
    | some l => decide (l < d)
  if fire then
    { st with
      wallet_store := st.wallet_store.map (fun e => (e.fst, st.initial_coins)),
      users := st.users.map (fun e =>
        (e.fst,
         if (alookup st.wallet_store e.fst).isSome then
           { e.snd with coins := st.initial_coins }
         else e.snd)),
      last_reset := some d }
  else st

/-! ### Player management -/

/-- Python `can_join`: at least two cards left and the identity not already
present in `users` (in any status, `ready` included). -/
def can_join (st : GameState) (uid : UserId) : Bool :=
  if st.deck.length < 2 then false
  else if (alookup st.users uid).isSome then false
  else true

/-- Ten-valued ranks used by the natural-blackjack test in `add_user`. -/
def ten_valued : Rank → Bool
  | Rank.r10 => true | Rank.jack => true | Rank.queen => true | Rank.king => true
  | _ => false

/-- The natural-blackjack condition of `add_user`: the hand holds an Ace and
some ten-valued card. -/
def natural_hand (hand : List Card) : Bool :=
  hand.any (fun c => c.rank = Rank.ace) && hand.any (fun c => ten_valued c.rank)

/-- Python `deal_card`: draw the top (last) card for a `playing` player and
recompute their score; `None` and no change on a missing player, a
non-playing status, or an empty deck.  Note that `current_raise` is not
consulted. -/
def deal_card (st : GameState) (uid : UserId) : Option Card × GameState :=
  match alookup st.users uid with
  | none => (none, st)
  | some p =>
    if p.status ≠ Status.playing then (none, st)
    else
      match st.deck.getLast? with
      | none => (none, st)
      | some card =>
        let st1 := { st with
                     deck := st.deck.dropLast,
                     users := aset st.users uid { p with hand := p.hand ++ [card] } }
        (some card, update_score st1 uid)

/-- Python `deal_initial_cards`: two draws. -/
def deal_initial_cards (st : GameState) (uid : UserId) : GameState :=
  (deal_card (deal_card st uid).2 uid).2

/-- The player record `add_user` creates for a joiner whose balance was `w`
(the 1-coin ante already deducted in the mirror). -/
def join_player (w : Int) : PlayerState :=
  { hand := [], score := 0, status := Status.playing, coins := w - 1,
    bet := 1, has_raised := false, is_folded := false, natural_bonus := 0 }

/-- The natural-blackjack bookkeeping at the end of `add_user`: record a
bonus of 5 (not paid yet) when the dealt hand holds an Ace and a ten-valued
card. -/
def natural_step (st : GameState) (uid : UserId) : GameState :=
  match alookup st.users uid with
  | none => st
  | some q =>
    if natural_hand q.hand then
      { st with users := aset st.users uid { q with natural_bonus := 5 } }
    else st

/-- Python `add_user`, with the current local date passed explicitly (it is
consumed by the `check_and_reset_coins` call at the top).  On success the
1-coin ante moves from the wallet to the pot, two cards are dealt, the score
is computed, and a natural bonus of 5 is recorded (not paid) when the dealt
hand is an Ace plus a ten-valued card. -/
def add_user (d : Nat) (st : GameState) (uid : UserId) : Bool × GameState :=
  let st0 := check_and_reset_coins d st
  if ¬ can_join st0 uid then (false, st0)
  else
    let gc := get_coins st0 uid
    if gc.1 < 1 then (false, gc.2)
    else
      let st2 := { gc.2 with users := aset gc.2.users uid (join_player gc.1) }
      let st3 := set_coins st2 uid (gc.1 - 1)
      let st4 := { st3 with pot := st3.pot + 1 }
      (true, natural_step (deal_initial_cards st4 uid) uid)

/-- Python `user_stand`. -/
def user_stand (st : GameState) (uid : UserId) : GameState :=
  match alookup st.users uid with
  | none => st
  | some p =>
    if p.status = Status.playing then
      { st with users := aset st.users uid { p with status := Status.stand } }
    else st

/-! ### Raise handling -/

/-- The membership test of `calculate_max_raise`'s other-player list: not
folded, status `playing` or `stand`, and not the raiser. -/
def is_active_other (raiser : UserId) (e : UserId × PlayerState) : Bool :=
  decide (e.snd.is_folded = false ∧
    (e.snd.status = Status.playing ∨ e.snd.status = Status.stand) ∧
    e.fst ≠ raiser)

/-- The other-player list of `calculate_max_raise`: seated users that are not
folded, have status `playing` or `stand`, and are not the raiser, in
insertion order. -/
def active_others (users : List (UserId × PlayerState)) (raiser : UserId) : List UserId :=
  (users.filter (is_active_other raiser)).map Prod.fst

/-- Threaded `_get_coins` over a list of users, as a Python generator
consumed left to right does. -/
def get_coins_list : GameState → List UserId → List Int × GameState
  | st, [] => ([], st)
  | st, u :: rest =>
    let gc := get_coins st u
    let tail := get_coins_list gc.2 rest
    (gc.1 :: tail.1, tail.2)

/-- Minimum of a nonempty collection, as Python `min` computes it. -/
def min_list (x : Int) (l : List Int) : Int := l.foldl min x

/-- Python `calculate_max_raise`.  Note it never consults the raiser's
`has_raised`, `is_folded`, or `status`: it returns 0 only for an unseated
raiser, otherwise the raiser's balance capped (when other active players
exist) by the minimum of their balances minus one, floored at 0. -/
def calculate_max_raise (st : GameState) (uid : UserId) : Int × GameState :=
  match alookup st.users uid with
  | none => (0, st)
  | some _ =>
    let rc := get_coins st uid
    let others := active_others rc.2.users uid
    match others with
    | [] => (rc.1, rc.2)
    | o :: orest =>
      let cs := get_coins_list rc.2 (o :: orest)
      let m := match cs.1 with
        | [] => 0
        | c :: crest => min_list c crest
      let max_by_others := max 0 (m - 1)
      (max 0 (min rc.1 max_by_others), cs.2)

/-- Python `start_raise`: the raiser must be seated, `playing`, not folded,
not have raised before; the amount must lie in `[1, calculate_max_raise]`
and be affordable.  On success the amount moves from the raiser's wallet to
the pot, the bet grows, `current_raise` is set, `has_raised` is marked. -/
def start_raise (st : GameState) (uid : UserId) (amount : Int) : Bool × GameState :=
  match alookup st.users uid with
  | none => (false, st)
  | some p =>
    if p.has_raised = true ∨ p.is_folded = true ∨ p.status ≠ Status.playing then (false, st)
    else
      let mr := calculate_max_raise st uid
      if amount < 1 ∨ mr.1 < amount then (false, mr.2)
      else
        let gc := get_coins mr.2 uid
        if gc.1 < amount then (false, gc.2)
        else
          let ac := adjust_coins gc.2 uid (-amount)
          match alookup ac.2.users uid with
          | none => (false, ac.2)
          | some q =>
            (true, { ac.2 with
                     users := aset ac.2.users uid
                       { q with bet := q.bet + amount, has_raised := true },
                     pot := ac.2.pot + amount,
                     current_raise := amount })

/-- Python `respond_to_raise`: a seated, playing, non-folded player answers
an open raise with the string `call` (pay `current_raise` into the pot) or
`fold`; any other action, or no open raise, is declined. -/
def respond_to_raise (st : GameState) (uid : UserId) (action : String) : Bool × GameState :=
  match alookup st.users uid with
  | none => (false, st)
  | some p =>
    if p.is_folded = true ∨ p.status ≠ Status.playing then (false, st)
    else if st.current_raise ≤ 0 then (false, st)
    else if action = "call" then
      let gc := get_coins st uid
      if gc.1 < st.current_raise then (false, gc.2)
      else
        let ac := adjust_coins gc.2 uid (-st.current_raise)
        match alookup ac.2.users uid with
        | none => (false, ac.2)
        | some q =>
          (true, { ac.2 with
                   users := aset ac.2.users uid { q with bet := q.bet + st.current_raise },
                   pot := ac.2.pot + st.current_raise })
    else if action = "fold" then
      (true, { st with
               users := aset st.users uid
                 { p with status := Status.fold, is_folded := true } })
    else (false, st)

/-- Python `clear_raise`. -/
def clear_raise (st : GameState) : GameState := { st with current_raise := 0 }

/-! ### Rendering helpers used by the per-player summaries -/

def suit_to_emoji : Suit → String
  | Suit.hearts => "♥️" | Suit.diamonds => "♦️"
  | Suit.clubs => "♣️" | Suit.spades => "♠️"

def rank_to_string : Rank → String
  | Rank.r2 => "2" | Rank.r3 => "3" | Rank.r4 => "4" | Rank.r5 => "5"
  | Rank.r6 => "6" | Rank.r7 => "7" | Rank.r8 => "8" | Rank.r9 => "9"
  | Rank.r10 => "10" | Rank.jack => "J" | Rank.queen => "Q" | Rank.king => "K"
  | Rank.ace => "A"

def card_to_string (c : Card) : String := suit_to_emoji c.suit ++ rank_to_string c.rank

def hand_to_string (hand : List Card) : String :=
  String.intercalate ", " (hand.map card_to_string)

/-! ### Round resolution -/

/-- One element of the summary list `resolve_round` returns. -/
structure ResultEntry where
  user_id : UserId
  hand : String
  score : Nat
  final_coins : Int
  change : Int
  natural_bonus : Int
deriving DecidableEq, Repr

/-- Python `reset_game`, with the fresh shuffled deck (`create_deck`'s
output, which is external randomness) passed explicitly: pot and raise
cleared, every player wiped back to `ready` keeping only their coin
mirror. -/
def reset_game (newDeck : List Card) (st : GameState) : GameState :=
  { st with
    deck := newDeck,
    pot := 0,
    current_raise := 0,
    users := st.users.map (fun e =>
      (e.fst, { e.snd with
                hand := [], score := 0, status := Status.ready, bet := 0,
                has_raised := false, is_folded := false, natural_bonus := 0 })) }

/-- The in-round filter of `resolve_round`: status not `ready`, or a positive
bet, or a nonempty hand. -/
def in_round (p : PlayerState) : Bool :=
  decide (p.status ≠ Status.ready ∨ 0 < p.bet ∨ p.hand ≠ [])

/-- Identities of this round's players, in insertion order. -/
def round_player_ids (st : GameState) : List UserId :=
  (st.users.filter (fun e => in_round e.snd)).map Prod.fst

/-- The survivor predicate of `resolve_round`. -/
def is_active (p : PlayerState) : Bool :=
  decide ((p.status = Status.playing ∨ p.status = Status.stand) ∧ p.is_folded = false)

/-- The score `resolve_round` reads for a user (the user is always seated at
every use site). -/
def score_of (st : GameState) (uid : UserId) : Nat :=
  match alookup st.users uid with
  | none => 0
  | some p => p.score

/-- `active_players` of `resolve_round`: in-round players that are
`playing`/`stand` and not folded, in insertion order. -/
def survivors (st : GameState) : List UserId :=
  (st.users.filter (fun e => in_round e.snd && is_active e.snd)).map Prod.fst

/-- `highest_score` of `resolve_round` (0 if there is no survivor; the code
only evaluates it when some survivor exists). -/
def top_score (st : GameState) : Nat :=
  match survivors st with
  | [] => 0
  | a :: arest => (arest.map (score_of st)).foldl max (score_of st a)

/-- The tied-at-the-top winner list of `resolve_round`, in insertion
order. -/
def winners_of (st : GameState) : List UserId :=
  (survivors st).filter (fun u => score_of st u = top_score st)

/-- The pot-distribution loop of `resolve_round`: each winner receives the
integer share, and winners with index below the remainder one extra coin. -/
def pay_winners : GameState → List UserId → Int → Int → Nat → GameState
  | st, [], _, _, _ => st
  | st, u :: rest, share, rem, i =>
    let st1 := (adjust_coins st u share).2
    let st2 := if (i : Int) < rem then (adjust_coins st1 u 1).2 else st1
    pay_winners st2 rest share rem (i + 1)

/-- The natural-bonus loop of `resolve_round`: pay the recorded bonus to
every in-round player that is neither busted nor folded. -/
def pay_bonuses : GameState → List UserId → GameState
  | st, [] => st
  | st, u :: rest =>
    let st1 :=
      match alookup st.users u with
      | none => st
      | some p =>
        if p.natural_bonus ≠ 0 ∧ p.status ≠ Status.bust ∧ p.is_folded = false then
          (adjust_coins st u p.natural_bonus).2
        else st
    pay_bonuses st1 rest

/-- The all-bust refund loop of `resolve_round`: give each in-round player
their bet back and zero the bet. -/
def refund_bets : GameState → List UserId → GameState
  | st, [] => st
  | st, u :: rest =>
    let st1 :=
      match alookup st.users u with
      | none => st
      | some p =>
        let st2 := (adjust_coins st u p.bet).2
        match alookup st2.users u with
        | none => st2
        | some q => { st2 with users := aset st2.users u { q with bet := 0 } }
    refund_bets st1 rest

/-- The summary-building loop of `resolve_round`: for each in-round player,
record identity, rendered hand, score, final balance, and the difference to
the balance recorded when `resolve_round` started. -/
def build_results : GameState → List UserId → List (UserId × Int) → List ResultEntry × GameState
  | st, [], _ => ([], st)
  | st, u :: rest, init =>
    match alookup st.users u with
    | none => build_results st rest init
    | some p =>
      let gc1 := get_coins st u
      let gc2 := get_coins gc1.2 u
      let entry : ResultEntry :=
        { user_id := u, hand := hand_to_string p.hand, score := p.score,
          final_coins := gc2.1, change := gc1.1 - (alookup init u).getD 0,
          natural_bonus := p.natural_bonus }
      let tail := build_results gc2.2 rest init
      (entry :: tail.1, tail.2)

/-- The all-bust branch of `resolve_round`: refund each bet, zero the pot,
build the summary, reset. -/
def resolve_refund (newDeck : List Card) (st : GameState) (rp : List UserId)
    (init : List (UserId × Int)) : String × List ResultEntry × GameState :=
  let stB := refund_bets st rp
  let stC := { stB with pot := 0 }
  let br := build_results stC rp init
  ("勝者なし、全員バーストしました。", br.1, reset_game newDeck br.2)

/-- The survivors branch of `resolve_round`: split the pot among the tied
top-score winners (remainder one coin at a time in list order), pay natural
bonuses, build the summary, reset. -/
def resolve_winners (newDeck : List Card) (st : GameState) (rp : List UserId)
    (init : List (UserId × Int)) : String × List ResultEntry × GameState :=
  let highest := top_score st
  let winners := winners_of st
  let share := Int.fdiv st.pot winners.length
  let rem := Int.fmod st.pot winners.length
  let stB := pay_winners st winners share rem 0
  let stC := pay_bonuses stB rp
  let br := build_results stC rp init
  let msg :=
    if winners.length = 1 then
      "勝者: " ++ winners.headD "" ++ " スコア: " ++ toString highest ++ "!"
    else
      "引き分けです！勝者: " ++ String.intercalate ", " winners ++
        " スコア: " ++ toString highest
  (msg, br.1, reset_game newDeck br.2)

/-- Python `resolve_round`, with the fresh deck used by the final
`reset_game` passed explicitly.  Returns the outcome message, the per-player
summary, and the reset state. -/
def resolve_round (newDeck : List Card) (st : GameState) : String × List ResultEntry × GameState :=
  let rp := round_player_ids st
  if rp = [] then
    ("進行中のプレイヤーがいません。", [], reset_game newDeck st)
  else
    let ic := get_coins_list st rp
    let stA := ic.2
    match survivors stA with
    | [] => resolve_refund newDeck stA rp (rp.zip ic.1)
    | _ :: _ => resolve_winners newDeck stA rp (rp.zip ic.1)

/-! ### Basic lemmas about the wallet primitives -/

theorem aset_aset {α : Type} (l : List (String × α)) (key : String) (v w : α) :
    aset (aset l key v) key w = aset l key w := by
  induction l with
  | nil => simp [aset]
  | cons hd tl ih =>
    obtain ⟨k, x⟩ := hd
    by_cases hk : k = key <;> simp [aset, hk, ih]

@[simp] theorem ensure_wallet_deck (st : GameState) (u : UserId) :
    (ensure_wallet st u).deck = st.deck := by
  unfold ensure_wallet; split <;> rfl

@[simp] theorem ensure_wallet_users (st : GameState) (u : UserId) :
    (ensure_wallet st u).users = st.users := by
  unfold ensure_wallet; split <;> rfl

@[simp] theorem ensure_wallet_pot (st : GameState) (u : UserId) :
    (ensure_wallet st u).pot = st.pot := by
  unfold ensure_wallet; split <;> rfl

@[simp] theorem ensure_wallet_current_raise (st : GameState) (u : UserId) :
    (ensure_wallet st u).current_raise = st.current_raise := by
  unfold ensure_wallet; split <;> rfl

@[simp] theorem ensure_wallet_initial_coins (st : GameState) (u : UserId) :
    (ensure_wallet st u).initial_coins = st.initial_coins := by
  unfold ensure_wallet; split <;> rfl

@[simp] theorem ensure_wallet_last_reset (st : GameState) (u : UserId) :
    (ensure_wallet st u).last_reset = st.last_reset := by
  unfold ensure_wallet; split <;> rfl

theorem ensure_wallet_lookup_self (st : GameState) (u : UserId) :
    alookup (ensure_wallet st u).wallet_store u = some (walletOf st u) := by
  unfold ensure_wallet walletOf
  cases h : alookup st.wallet_store u with
  | none => simp [h, alookup_aset]
  | some v => simp [h]

@[simp] theorem walletOf_ensure_wallet (st : GameState) (u v : UserId) :
    walletOf (ensure_wallet st u) v = walletOf st v := by
  unfold ensure_wallet walletOf
  cases h : alookup st.wallet_store u with
  | none =>
    by_cases hv : v = u
    · subst hv; simp [h, alookup_aset]
    · simp [h, alookup_aset_ne _ _ _ _ hv]
  | some w => simp [h]

@[simp] theorem get_coins_fst (st : GameState) (u : UserId) :
    (get_coins st u).1 = walletOf st u := by
  simp only [get_coins, ensure_wallet_users, ensure_wallet_lookup_self, Option.getD_some]
  cases h : alookup st.users u <;> simp [h]

@[simp] theorem get_coins_deck (st : GameState) (u : UserId) :
    (get_coins st u).2.deck = st.deck := by
  simp only [get_coins, ensure_wallet_users]
  cases h : alookup st.users u <;> simp [h]

@[simp] theorem get_coins_pot (st : GameState) (u : UserId) :
    (get_coins st u).2.pot = st.pot := by
  simp only [get_coins, ensure_wallet_users]
  cases h : alookup st.users u <;> simp [h]

@[simp] theorem get_coins_current_raise (st : GameState) (u : UserId) :
    (get_coins st u).2.current_raise = st.current_raise := by
  simp only [get_coins, ensure_wallet_users]
  cases h : alookup st.users u <;> simp [h]

@[simp] theorem get_coins_initial_coins (st : GameState) (u : UserId) :
    (get_coins st u).2.initial_coins = st.initial_coins := by
  simp only [get_coins, ensure_wallet_users]
  cases h : alookup st.users u <;> simp [h]

@[simp] theorem get_coins_last_reset (st : GameState) (u : UserId) :
    (get_coins st u).2.last_reset = st.last_reset := by
  simp only [get_coins, ensure_wallet_users]
  cases h : alookup st.users u <;> simp [h]

@[simp] theorem get_coins_wallet_store (st : GameState) (u : UserId) :
    (get_coins st u).2.wallet_store = (ensure_wallet st u).wallet_store := by
  simp only [get_coins, ensure_wallet_users]
  cases h : alookup st.users u <;> simp [h]

@[simp] theorem walletOf_get_coins (st : GameState) (u v : UserId) :
    walletOf (get_coins st u).2 v = walletOf st v := by
  have h1 : walletOf (ensure_wallet st u) v =
      (alookup (ensure_wallet st u).wallet_store v).getD st.initial_coins := by
    rw [walletOf, ensure_wallet_initial_coins]
  rw [walletOf, get_coins_wallet_store, get_coins_initial_coins, ← h1, walletOf_ensure_wallet]

theorem get_coins_users_of_none (st : GameState) (u : UserId)
    (h : alookup st.users u = none) :
    (get_coins st u).2.users = st.users := by
  simp only [get_coins, ensure_wallet_users, h]

theorem get_coins_users_of_some (st : GameState) (u : UserId) (p : PlayerState)
    (h : alookup st.users u = some p) :
    (get_coins st u).2.users = aset st.users u { p with coins := walletOf st u } := by
  simp only [get_coins, ensure_wallet_users, ensure_wallet_lookup_self, Option.getD_some, h]

@[simp] theorem set_coins_deck (st : GameState) (u : UserId) (a : Int) :
    (set_coins st u a).deck = st.deck := by
  unfold set_coins
  cases h : alookup st.users u <;> simp [h]

@[simp] theorem set_coins_pot (st : GameState) (u : UserId) (a : Int) :
    (set_coins st u a).pot = st.pot := by
  unfold set_coins
  cases h : alookup st.users u <;> simp [h]

@[simp] theorem set_coins_current_raise (st : GameState) (u : UserId) (a : Int) :
    (set_coins st u a).current_raise = st.current_raise := by
  unfold set_coins
  cases h : alookup st.users u <;> simp [h]

@[simp] theorem set_coins_initial_coins (st : GameState) (u : UserId) (a : Int) :
    (set_coins st u a).initial_coins = st.initial_coins := by
  unfold set_coins
  cases h : alookup st.users u <;> simp [h]

@[simp] theorem set_coins_last_reset (st : GameState) (u : UserId) (a : Int) :
    (set_coins st u a).last_reset = st.last_reset := by
  unfold set_coins
  cases h : alookup st.users u <;> simp [h]

@[simp] theorem set_coins_wallet_store (st : GameState) (u : UserId) (a : Int) :
    (set_coins st u a).wallet_store = aset st.wallet_store u a := by
  unfold set_coins
  cases h : alookup st.users u <;> simp [h]

theorem walletOf_set_coins (st : GameState) (u v : UserId) (a : Int) :
    walletOf (set_coins st u a) v = if v = u then a else walletOf st v := by
  unfold walletOf
  rw [set_coins_wallet_store, set_coins_initial_coins]
  by_cases hv : v = u
  · subst hv; simp [alookup_aset]
  · simp [hv, alookup_aset_ne _ _ _ _ hv]

theorem set_coins_users_of_none (st : GameState) (u : UserId) (a : Int)
    (h : alookup st.users u = none) :
    (set_coins st u a).users = st.users := by
  unfold set_coins
  simp [h]

theorem set_coins_users_of_some (st : GameState) (u : UserId) (a : Int) (p : PlayerState)
    (h : alookup st.users u = some p) :
    (set_coins st u a).users = aset st.users u { p with coins := a } := by
  unfold set_coins
  simp [h]

@[simp] theorem adjust_coins_fst (st : GameState) (u : UserId) (δ : Int) :
    (adjust_coins st u δ).1 = walletOf st u + δ := by
  unfold adjust_coins
  simp

@[simp] theorem adjust_coins_deck (st : GameState) (u : UserId) (δ : Int) :
    (adjust_coins st u δ).2.deck = st.deck := by
  unfold adjust_coins
  simp

@[simp] theorem adjust_coins_pot (st : GameState) (u : UserId) (δ : Int) :
    (adjust_coins st u δ).2.pot = st.pot := by
  unfold adjust_coins
  simp

@[simp] theorem adjust_coins_current_raise (st : GameState) (u : UserId) (δ : Int) :
    (adjust_coins st u δ).2.current_raise = st.current_raise := by
  unfold adjust_coins
  simp

@[simp] theorem adjust_coins_initial_coins (st : GameState) (u : UserId) (δ : Int) :
    (adjust_coins st u δ).2.initial_coins = st.initial_coins := by
  unfold adjust_coins
  simp

@[simp] theorem adjust_coins_last_reset (st : GameState) (u : UserId) (δ : Int) :
    (adjust_coins st u δ).2.last_reset = st.last_reset := by
  unfold adjust_coins
  simp

theorem walletOf_adjust_coins (st : GameState) (u v : UserId) (δ : Int) :
    walletOf (adjust_coins st u δ).2 v = if v = u then walletOf st u + δ else walletOf st v := by
  unfold adjust_coins
  rw [walletOf_set_coins]
  simp

theorem adjust_coins_users_of_none (st : GameState) (u : UserId) (δ : Int)
    (h : alookup st.users u = none) :
    (adjust_coins st u δ).2.users = st.users := by
  unfold adjust_coins
  rw [set_coins_users_of_none, get_coins_users_of_none st u h]
  rw [get_coins_users_of_none st u h, h]

theorem adjust_coins_users_of_some (st : GameState) (u : UserId) (δ : Int) (p : PlayerState)
    (h : alookup st.users u = some p) :
    (adjust_coins st u δ).2.users =
      aset st.users u { p with coins := walletOf st u + δ } := by
  unfold adjust_coins
  rw [set_coins_users_of_some _ _ _ { p with coins := walletOf st u }]
  · rw [get_coins_users_of_some st u p h, aset_aset]
    simp
  · rw [get_coins_users_of_some st u p h, alookup_aset]

theorem alookup_map_keyed {α : Type} (g : String → α → α) (l : List (String × α)) (u : String) :
    alookup (l.map (fun e => (e.fst, g e.fst e.snd))) u = (alookup l u).map (fun v => g u v) := by
  induction l with
  | nil => rfl
  | cons hd tl ih =>
    obtain ⟨k, v⟩ := hd
    by_cases hk : k = u
    · subst hk; simp [alookup]
    · simp [alookup, hk, ih]

/-- The condition under which `check_and_reset_coins` performs the reset:
no stored date, or the current date is later than the stored one. -/
def reset_fires (d : Nat) (st : GameState) : Prop :=
  st.last_reset = none ∨ ∃ l, st.last_reset = some l ∧ l < d

theorem check_and_reset_of_fires (d : Nat) (st : GameState) (h : reset_fires d st) :
    check_and_reset_coins d st =
      { st with
        wallet_store := st.wallet_store.map (fun e => (e.fst, st.initial_coins)),
        users := st.users.map (fun e =>
          (e.fst,
           if (alookup st.wallet_store e.fst).isSome then
             { e.snd with coins := st.initial_coins }
           else e.snd)),
        last_reset := some d } := by
  rcases h with h | ⟨l, hl, hld⟩
  · simp [check_and_reset_coins, h]
  · simp [check_and_reset_coins, hl, hld]

theorem check_and_reset_of_quiet (d : Nat) (st : GameState) (l : Nat)
    (hl : st.last_reset = some l) (hld : ¬ l < d) :
    check_and_reset_coins d st = st := by
  simp [check_and_reset_coins, hl, hld]

/-- C8: if the stored last-reset date is absent or earlier than the current
local date, `check_and_reset_coins` (invoked by every wallet-touching
operation) sets every tracked wallet balance and every tracked seated
mirror to `initial_coins` and records the new date; once the stored date
equals the current date the call is the identity, and a second call on the
same date never fires again — the reset happens exactly once per calendar
day. -/
theorem daily_reset_exactly_once (d : Nat) (st : GameState) :
    (reset_fires d st →
      (∀ u c, alookup st.wallet_store u = some c →
        alookup (check_and_reset_coins d st).wallet_store u = some st.initial_coins) ∧
      (∀ u p, alookup st.users u = some p → (alookup st.wallet_store u).isSome →
        alookup (check_and_reset_coins d st).users u =
          some { p with coins := st.initial_coins }) ∧
      (check_and_reset_coins d st).last_reset = some d) ∧
    (st.last_reset = some d → check_and_reset_coins d st = st) ∧
    check_and_reset_coins d (check_and_reset_coins d st) = check_and_reset_coins d st := by
  refine ⟨?_, ?_, ?_⟩
  · intro hf
    rw [check_and_reset_of_fires d st hf]
    refine ⟨?_, ?_, rfl⟩
    · intro u c hc
      have hm := alookup_map_keyed (fun _ _ => st.initial_coins) st.wallet_store u
      rw [hm, hc]
      rfl
    · intro u p hp hw
      have hm := alookup_map_keyed
        (fun k q => if (alookup st.wallet_store k).isSome then
          { q with coins := st.initial_coins } else q) st.users u
      rw [hm, hp]
      simp [hw]
  · intro hd
    exact check_and_reset_of_quiet d st d hd (by omega)
  · by_cases hf : reset_fires d st
    · have h1 := check_and_reset_of_fires d st hf
      have h2 : (check_and_reset_coins d st).last_reset = some d := by rw [h1]
      exact check_and_reset_of_quiet d _ d h2 (by omega)
    · rcases h : st.last_reset with _ | l
      · exact absurd (Or.inl h) hf
      · have hld : ¬ l < d := fun hlt => hf (Or.inr ⟨l, h, hlt⟩)
        rw [check_and_reset_of_quiet d st l h hld, check_and_reset_of_quiet d st l h hld]

def c8_player : PlayerState :=
  { hand := [], score := 0, status := Status.ready, coins := 5, bet := 0,
    has_raised := false, is_folded := false, natural_bonus := 0 }

def c8_state : GameState :=
  { deck := [], users := [("a", c8_player)], pot := 0, current_raise := 0,
    initial_coins := 30, wallet_store := [("a", 5)], last_reset := some 3 }

/-- Witness for C8: a store last reset on day 3, touched on day 4. -/
theorem daily_reset_exactly_once_witness :
    reset_fires 4 c8_state ∧
    alookup (check_and_reset_coins 4 c8_state).wallet_store "a" = some 30 ∧
    (check_and_reset_coins 4 c8_state).last_reset = some 4 ∧
    check_and_reset_coins 4 (check_and_reset_coins 4 c8_state) =
      check_and_reset_coins 4 c8_state := by
  have hf : reset_fires 4 c8_state := Or.inr ⟨3, rfl, by omega⟩
  have h := daily_reset_exactly_once 4 c8_state
  exact ⟨hf, (h.1 hf).1 "a" 5 rfl, (h.1 hf).2.2, h.2.2⟩

/-- C10: a daily reset touches only coin balances (wallet entries and seated
mirrors) and the stored date: the deck, pot, current raise, the key sets of
both maps, and every player's hand, score, status, bet, raise flag, fold
flag and natural bonus are exactly as before, so an in-progress round stays
playable. -/
theorem reset_frame_round_state (d : Nat) (st : GameState) :
    (check_and_reset_coins d st).deck = st.deck ∧
    (check_and_reset_coins d st).pot = st.pot ∧
    (check_and_reset_coins d st).current_raise = st.current_raise ∧
    (check_and_reset_coins d st).initial_coins = st.initial_coins ∧
    (check_and_reset_coins d st).users.map Prod.fst = st.users.map Prod.fst ∧
    (check_and_reset_coins d st).wallet_store.map Prod.fst = st.wallet_store.map Prod.fst ∧
    ∀ u p, alookup st.users u = some p →
      ∃ p', alookup (check_and_reset_coins d st).users u = some p' ∧
        p'.hand = p.hand ∧ p'.score = p.score ∧ p'.status = p.status ∧
        p'.bet = p.bet ∧ p'.has_raised = p.has_raised ∧
        p'.is_folded = p.is_folded ∧ p'.natural_bonus = p.natural_bonus := by
  by_cases hf : reset_fires d st
  · rw [check_and_reset_of_fires d st hf]
    refine ⟨rfl, rfl, rfl, rfl, by simp, by simp, ?_⟩
    intro u p hp
    have hm := alookup_map_keyed
      (fun k q => if (alookup st.wallet_store k).isSome then
        { q with coins := st.initial_coins } else q) st.users u
    refine ⟨_, by rw [hm, hp]; rfl, ?_⟩
    by_cases hw : (alookup st.wallet_store u).isSome <;>
      simp [hw]
  · rcases h : st.last_reset with _ | l
    · exact absurd (Or.inl h) hf
    · have hld : ¬ l < d := fun hlt => hf (Or.inr ⟨l, h, hlt⟩)
      rw [check_and_reset_of_quiet d st l h hld]
      exact ⟨rfl, rfl, rfl, rfl, rfl, rfl, fun u p hp => ⟨p, hp, rfl, rfl, rfl, rfl, rfl, rfl, rfl⟩⟩

def c10_player : PlayerState :=
  { hand := [⟨Suit.spades, Rank.king⟩, ⟨Suit.hearts, Rank.r9⟩], score := 19,
    status := Status.stand, coins := 4, bet := 3,
    has_raised := true, is_folded := false, natural_bonus := 0 }

def c10_state : GameState :=
  { deck := [⟨Suit.clubs, Rank.r2⟩], users := [("p", c10_player)], pot := 6,
    current_raise := 2, initial_coins := 30, wallet_store := [("p", 4)],
    last_reset := some 9 }

/-- Witness for C10: a mid-round state hit by a day-10 reset keeps its
round data. -/
theorem reset_frame_round_state_witness :
    ∃ p', alookup (check_and_reset_coins 10 c10_state).users "p" = some p' ∧
      p'.hand = c10_player.hand ∧ p'.score = c10_player.score ∧
      p'.status = c10_player.status ∧ p'.bet = c10_player.bet ∧
      p'.has_raised = c10_player.has_raised ∧ p'.is_folded = c10_player.is_folded ∧
      p'.natural_bonus = c10_player.natural_bonus :=
  (reset_frame_round_state 10 c10_state).2.2.2.2.2.2 "p" c10_player rfl

/-! ### Scoring (claim C3) -/

/-- The spec's description of Ace reduction: some number `j` of Aces is
re-counted from 11 to 1 (10 subtracted each), stopping as soon as the total
is at most 21 or no flexible Ace remains, and no Ace is re-counted while the
total was already at most 21. -/
def spec_reduced (base aces s : Nat) : Prop :=
  ∃ j, j ≤ aces ∧ s = base - 10 * j ∧ (s ≤ 21 ∨ j = aces) ∧
    ∀ j', j' < j → 21 < base - 10 * j'

theorem reduceScore_spec (aces base : Nat) :
    spec_reduced base aces (reduceScore base aces) := by
  induction aces generalizing base with
  | zero => exact ⟨0, Nat.le_refl 0, by simp [reduceScore], Or.inr rfl, by omega⟩
  | succ n ih =>
    by_cases h : 21 < base
    · have hred : reduceScore base (n + 1) = reduceScore (base - 10) n := by
        simp [reduceScore, h]
      obtain ⟨j, hj, hs, hor, hmin⟩ := ih (base - 10)
      refine ⟨j + 1, by omega, by rw [hred]; omega, ?_, ?_⟩
      · rcases hor with hle | hje
        · exact Or.inl (hred ▸ hle)
        · exact Or.inr (by omega)
      · intro j' hj'
        match j' with
        | 0 => simpa using h
        | k + 1 =>
          have := hmin k (by omega)
          omega
    · refine ⟨0, by omega, ?_, Or.inl (by simp [reduceScore, h]; omega), by omega⟩
      simp [reduceScore, h]

@[simp] theorem update_score_deck (st : GameState) (uid : UserId) :
    (update_score st uid).deck = st.deck := by
  simp only [update_score]
  cases h : alookup st.users uid <;> rfl

/-- C3: the stored score is the raw sum (face cards 10, Aces 11) reduced by
10 per Ace while the total exceeds 21 and a flexible Ace remains; the three
example hands score 21, 21 and 22; and a final score above 21 makes the
status `bust` and sets `is_folded`, after which hitting and standing are
no-ops for the rest of the round. -/
theorem update_score_matches_spec (st : GameState) (uid : UserId) (p : PlayerState)
    (h : alookup st.users uid = some p) :
    (alookup (update_score st uid).users uid =
      some (if 21 < scoreOfHand p.hand then
              { p with score := scoreOfHand p.hand, status := Status.bust, is_folded := true }
            else { p with score := scoreOfHand p.hand })) ∧
    spec_reduced (rawScore p.hand) (aceCount p.hand) (scoreOfHand p.hand) ∧
    scoreOfHand [⟨Suit.spades, Rank.ace⟩, ⟨Suit.spades, Rank.king⟩] = 21 ∧
    scoreOfHand [⟨Suit.spades, Rank.ace⟩, ⟨Suit.hearts, Rank.ace⟩, ⟨Suit.spades, Rank.r9⟩] = 21 ∧
    scoreOfHand [⟨Suit.spades, Rank.king⟩, ⟨Suit.hearts, Rank.queen⟩, ⟨Suit.spades, Rank.r2⟩] = 22 ∧
    (p.status = Status.bust →
      deal_card st uid = (none, st) ∧ user_stand st uid = st) := by
  refine ⟨?_, reduceScore_spec _ _, by decide, by decide, by decide, ?_⟩
  · simp only [update_score, h]
    split <;> simp [alookup_aset]
  · intro hb
    constructor
    · simp [deal_card, h, hb]
    · simp [user_stand, h, hb]

def c3_player : PlayerState :=
  { hand := [⟨Suit.spades, Rank.king⟩, ⟨Suit.hearts, Rank.queen⟩, ⟨Suit.spades, Rank.r2⟩],
    score := 20, status := Status.playing, coins := 10, bet := 1,
    has_raised := false, is_folded := false, natural_bonus := 0 }

def c3_state : GameState :=
  { deck := [], users := [("x", c3_player)], pot := 1, current_raise := 0,
    initial_coins := 30, wallet_store := [("x", 10)], last_reset := some 0 }

/-- Witness for C3: the K-Q-2 hand busts and folds its holder. -/
theorem update_score_matches_spec_witness :
    alookup (update_score c3_state "x").users "x" =
      some { c3_player with score := 22, status := Status.bust, is_folded := true } := by
  have h := (update_score_matches_spec c3_state "x" c3_player rfl).1
  simpa using h

/-! ### Gating while a raise is open (claim C4) -/

/-- C4 amended: while `current_raise > 0` the engine itself rejects neither
hits nor new raises — `deal_card` never consults `current_raise` and draws
for any seated playing player with a nonempty deck — and only
`respond_to_raise` demands an open raise: its acceptance implies
`current_raise > 0`.  (Rejection of a second raise by the opener comes from
`has_raised`; rejection of other new raises while one is open exists only
in the chat command layer, not in the engine.) -/
theorem raise_open_gating :
    (∀ (st : GameState) (uid : UserId) (p : PlayerState),
      0 < st.current_raise →
      alookup st.users uid = some p →
      p.status = Status.playing →
      st.deck ≠ [] →
      (deal_card st uid).1.isSome ∧
      (deal_card st uid).2.deck.length + 1 = st.deck.length) ∧
    (∀ (st : GameState) (uid : UserId) (a : String),
      (respond_to_raise st uid a).1 = true → 0 < st.current_raise) := by
  constructor
  · intro st uid p _ hp hplay hdeck
    rcases hL : st.deck.getLast? with _ | card
    · exact absurd (List.getLast?_eq_none_iff.mp hL) hdeck
    · have hlen : 0 < st.deck.length := List.length_pos.mpr hdeck
      constructor
      · simp [deal_card, hp, hplay, hL]
      · simp [deal_card, hp, hplay, hL, List.length_dropLast]
        omega
  · intro st uid a h
    rcases hl : alookup st.users uid with _ | p
    · simp [respond_to_raise, hl] at h
    · by_cases c1 : p.is_folded = true ∨ p.status ≠ Status.playing
      · simp [respond_to_raise, hl, c1] at h
      · by_cases c2 : st.current_raise ≤ 0
        · simp [respond_to_raise, hl, c1, c2] at h
        · omega

def c4_player_a : PlayerState :=
  { hand := [⟨Suit.spades, Rank.king⟩], score := 10, status := Status.playing,
    coins := 2, bet := 4, has_raised := true, is_folded := false, natural_bonus := 0 }

def c4_player_b : PlayerState :=
  { hand := [⟨Suit.hearts, Rank.r5⟩], score := 5, status := Status.playing,
    coins := 5, bet := 1, has_raised := false, is_folded := false, natural_bonus := 0 }

/-- A table with an open raise (`current_raise = 3`) awaiting responses. -/
def c4_state : GameState :=
  { deck := [⟨Suit.clubs, Rank.r2⟩], users := [("a", c4_player_a), ("b", c4_player_b)],
    pot := 5, current_raise := 3, initial_coins := 30,
    wallet_store := [("a", 2), ("b", 5)], last_reset := some 0 }

/-- Counterexample to C4 as stated: with a raise open (`current_raise = 3`),
a hit by the playing player `b` succeeds and changes the state, and `b`
can even open a new raise through the engine's `start_raise`. -/
theorem raise_open_gating_cex :
    0 < c4_state.current_raise ∧
    (deal_card c4_state "b").1 = some ⟨Suit.clubs, Rank.r2⟩ ∧
    (deal_card c4_state "b").2 ≠ c4_state ∧
    (start_raise c4_state "b" 1).1 = true ∧
    (start_raise c4_state "b" 1).2.current_raise = 1 := by decide

/-- Witness for the amended C4 at the same concrete table. -/
theorem raise_open_gating_witness :
    ((deal_card c4_state "b").1.isSome ∧
      (deal_card c4_state "b").2.deck.length + 1 = c4_state.deck.length) ∧
    0 < c4_state.current_raise := by
  refine ⟨raise_open_gating.1 c4_state "b" c4_player_b (by decide) rfl rfl (by decide), ?_⟩
  exact raise_open_gating.2 c4_state "b" "fold" (by decide)

/-! ### Coin updates leave all non-coin player data unchanged -/

/-- Forget the coin mirror of a player record. -/
def strip_coins (p : PlayerState) : PlayerState := { p with coins := 0 }

/-- The users map up to coin mirrors. -/
def users_strip (l : List (UserId × PlayerState)) : List (UserId × PlayerState) :=
  l.map (fun e => (e.fst, strip_coins e.snd))

@[simp] theorem users_strip_nil : users_strip [] = [] := rfl

@[simp] theorem users_strip_cons (k : UserId) (p : PlayerState) (tl : List (UserId × PlayerState)) :
    users_strip ((k, p) :: tl) = (k, strip_coins p) :: users_strip tl := rfl

theorem strip_coins_fields (p q : PlayerState) (h : strip_coins p = strip_coins q) :
    p.hand = q.hand ∧ p.score = q.score ∧ p.status = q.status ∧ p.bet = q.bet ∧
    p.has_raised = q.has_raised ∧ p.is_folded = q.is_folded ∧
    p.natural_bonus = q.natural_bonus := by
  refine ⟨?_, ?_, ?_, ?_, ?_, ?_, ?_⟩
  · simpa [strip_coins] using congrArg PlayerState.hand h
  · simpa [strip_coins] using congrArg PlayerState.score h
  · simpa [strip_coins] using congrArg PlayerState.status h
  · simpa [strip_coins] using congrArg PlayerState.bet h
  · simpa [strip_coins] using congrArg PlayerState.has_raised h
  · simpa [strip_coins] using congrArg PlayerState.is_folded h
  · simpa [strip_coins] using congrArg PlayerState.natural_bonus h

theorem users_strip_aset (l : List (UserId × PlayerState)) (u : UserId) (p q : PlayerState)
    (h : alookup l u = some p) (hq : strip_coins q = strip_coins p) :
    users_strip (aset l u q) = users_strip l := by
  induction l with
  | nil => simp [alookup] at h
  | cons hd tl ih =>
    obtain ⟨k, w⟩ := hd
    by_cases hk : k = u
    · subst hk
      simp [alookup] at h
      subst h
      simp [aset, hq]
    · simp [alookup, hk] at h
      simp [aset, hk, ih h]

theorem users_strip_get_coins (st : GameState) (u : UserId) :
    users_strip (get_coins st u).2.users = users_strip st.users := by
  cases h : alookup st.users u with
  | none => rw [get_coins_users_of_none st u h]
  | some p =>
    rw [get_coins_users_of_some st u p h]
    exact users_strip_aset _ _ _ _ h rfl

theorem users_strip_set_coins (st : GameState) (u : UserId) (a : Int) :
    users_strip (set_coins st u a).users = users_strip st.users := by
  cases h : alookup st.users u with
  | none => rw [set_coins_users_of_none st u a h]
  | some p =>
    rw [set_coins_users_of_some st u a p h]
    exact users_strip_aset _ _ _ _ h rfl

theorem users_strip_adjust_coins (st : GameState) (u : UserId) (δ : Int) :
    users_strip (adjust_coins st u δ).2.users = users_strip st.users := by
  cases h : alookup st.users u with
  | none => rw [adjust_coins_users_of_none st u δ h]
  | some p =>
    rw [adjust_coins_users_of_some st u δ p h]
    exact users_strip_aset _ _ _ _ h rfl

theorem alookup_strip_congr (l1 l2 : List (UserId × PlayerState))
    (h : users_strip l1 = users_strip l2) (v : UserId) :
    (alookup l1 v).map strip_coins = (alookup l2 v).map strip_coins := by
  induction l1 generalizing l2 with
  | nil =>
    cases l2 with
    | nil => rfl
    | cons hd2 tl2 => simp [users_strip] at h
  | cons hd tl ih =>
    cases l2 with
    | nil => simp [users_strip] at h
    | cons hd2 tl2 =>
      obtain ⟨k1, p1⟩ := hd
      obtain ⟨k2, p2⟩ := hd2
      simp only [users_strip_cons, List.cons.injEq, Prod.mk.injEq] at h
      obtain ⟨⟨hk, hp⟩, htl⟩ := h
      subst hk
      by_cases hv : k1 = v
      · simp [alookup, hv, hp]
      · simp [alookup, hv, ih tl2 htl]

theorem alookup_strip_some (l1 l2 : List (UserId × PlayerState))
    (h : users_strip l1 = users_strip l2) (v : UserId) (p : PlayerState)
    (hp : alookup l1 v = some p) :
    ∃ q, alookup l2 v = some q ∧ strip_coins p = strip_coins q := by
  have := alookup_strip_congr l1 l2 h v
  rw [hp] at this
  cases hq : alookup l2 v with
  | none => rw [hq] at this; simp at this
  | some q =>
    rw [hq] at this
    simp only [Option.map_some'] at this
    exact ⟨q, rfl, by injection this⟩

theorem active_others_strip_congr (l1 l2 : List (UserId × PlayerState))
    (h : users_strip l1 = users_strip l2) (r : UserId) :
    active_others l1 r = active_others l2 r := by
  induction l1 generalizing l2 with
  | nil =>
    cases l2 with
    | nil => rfl
    | cons hd2 tl2 => simp [users_strip] at h
  | cons hd tl ih =>
    cases l2 with
    | nil => simp [users_strip] at h
    | cons hd2 tl2 =>
      obtain ⟨k1, p1⟩ := hd
      obtain ⟨k2, p2⟩ := hd2
      simp only [users_strip_cons, List.cons.injEq, Prod.mk.injEq] at h
      obtain ⟨⟨hk, hp⟩, htl⟩ := h
      subst hk
      obtain ⟨-, -, hst, -, -, hf, -⟩ := strip_coins_fields p1 p2 hp
      have hpred : is_active_other r (k1, p1) = is_active_other r (k1, p2) := by
        simp only [is_active_other, hst, hf]
      have ihe := ih tl2 htl
      simp only [active_others, List.filter_cons] at ihe ⊢
      rw [hpred]
      cases hb : is_active_other r (k1, p2) <;> simp [hb, ihe]

/-! ### Threaded balance reads -/

theorem get_coins_list_fst (l : List UserId) (st : GameState) :
    (get_coins_list st l).1 = l.map (walletOf st) := by
  induction l generalizing st with
  | nil => rfl
  | cons u rest ih =>
    simp only [get_coins_list, get_coins_fst, List.map_cons, List.cons.injEq, true_and]
    rw [ih]
    rw [show walletOf (get_coins st u).2 = walletOf st from funext (walletOf_get_coins st u)]

theorem walletOf_get_coins_list (l : List UserId) (st : GameState) (v : UserId) :
    walletOf (get_coins_list st l).2 v = walletOf st v := by
  induction l generalizing st with
  | nil => rfl
  | cons u rest ih => simp only [get_coins_list, ih, walletOf_get_coins]

theorem users_strip_get_coins_list (l : List UserId) (st : GameState) :
    users_strip (get_coins_list st l).2.users = users_strip st.users := by
  induction l generalizing st with
  | nil => rfl
  | cons u rest ih => simp only [get_coins_list, ih, users_strip_get_coins]

@[simp] theorem get_coins_list_pot (l : List UserId) (st : GameState) :
    (get_coins_list st l).2.pot = st.pot := by
  induction l generalizing st with
  | nil => rfl
  | cons u rest ih => simp only [get_coins_list, ih, get_coins_pot]

@[simp] theorem get_coins_list_deck (l : List UserId) (st : GameState) :
    (get_coins_list st l).2.deck = st.deck := by
  induction l generalizing st with
  | nil => rfl
  | cons u rest ih => simp only [get_coins_list, ih, get_coins_deck]

@[simp] theorem get_coins_list_current_raise (l : List UserId) (st : GameState) :
    (get_coins_list st l).2.current_raise = st.current_raise := by
  induction l generalizing st with
  | nil => rfl
  | cons u rest ih => simp only [get_coins_list, ih, get_coins_current_raise]

@[simp] theorem get_coins_list_initial_coins (l : List UserId) (st : GameState) :
    (get_coins_list st l).2.initial_coins = st.initial_coins := by
  induction l generalizing st with
  | nil => rfl
  | cons u rest ih => simp only [get_coins_list, ih, get_coins_initial_coins]

/-! ### The maximum raise (claim C5) -/

/-- Closed form of `calculate_max_raise`'s return value: 0 for an unseated
raiser; the raiser's balance when no other active player exists; otherwise
the raiser's balance capped by (minimum other active balance − 1), floored
at 0.  The raiser's own `has_raised`, `is_folded` and `status` play no
role. -/
def cmr_formula (st : GameState) (uid : UserId) : Int :=
  match alookup st.users uid with
  | none => 0
  | some _ =>
    match active_others st.users uid with
    | [] => walletOf st uid
    | o :: rest =>
      max 0 (min (walletOf st uid)
        (max 0 (min_list (walletOf st o) (rest.map (walletOf st)) - 1)))

theorem calculate_max_raise_fst (st : GameState) (uid : UserId) :
    (calculate_max_raise st uid).1 = cmr_formula st uid := by
  simp only [calculate_max_raise, cmr_formula]
  cases h : alookup st.users uid with
  | none => rfl
  | some p =>
    have hao : active_others (get_coins st uid).2.users uid = active_others st.users uid :=
      active_others_strip_congr _ _ (users_strip_get_coins st uid) uid
    simp only [get_coins_fst, hao]
    cases hA : active_others st.users uid with
    | nil => rfl
    | cons o rest =>
      simp only [get_coins_list_fst]
      rw [show walletOf (get_coins st uid).2 = walletOf st from funext (walletOf_get_coins st uid)]
      simp only [List.map_cons]

theorem min_list_map_mono (f g : UserId → Int) (l : List UserId) (x y : Int)
    (hxy : x ≤ y) (h : ∀ v ∈ l, f v ≤ g v) :
    min_list x (l.map f) ≤ min_list y (l.map g) := by
  induction l generalizing x y with
  | nil => simpa [min_list]
  | cons a t ih =>
    simp only [List.map_cons, min_list, List.foldl_cons]
    exact ih (min x (f a)) (min y (g a))
      (min_le_min hxy (h a (List.mem_cons_self a t)))
      (fun v hv => h v (List.mem_cons_of_mem a hv))

/-- C5 amended: `calculate_max_raise` never consults the raiser's
`has_raised`, `is_folded` or `status` — it returns exactly `cmr_formula`
(0 only for an unseated raiser, the raiser's balance when no other active
player exists, otherwise `max 0 (min balance (max 0 (minOther − 1)))`) and
is monotonically non-increasing as other active players' balances decrease;
the already-raised / folded / not-playing gating is enforced by
`start_raise`, which declines without any state change in those cases. -/
theorem max_raise_formula_and_monotone :
    (∀ (st : GameState) (uid : UserId),
      (calculate_max_raise st uid).1 = cmr_formula st uid) ∧
    (∀ (st st' : GameState) (uid : UserId),
      st'.users = st.users →
      walletOf st' uid = walletOf st uid →
      (∀ v ∈ active_others st.users uid, walletOf st' v ≤ walletOf st v) →
      (calculate_max_raise st' uid).1 ≤ (calculate_max_raise st uid).1) ∧
    (∀ (st : GameState) (uid : UserId) (p : PlayerState) (amount : Int),
      alookup st.users uid = some p →
      (p.has_raised = true ∨ p.is_folded = true ∨ p.status ≠ Status.playing) →
      start_raise st uid amount = (false, st)) := by
  refine ⟨calculate_max_raise_fst, ?_, ?_⟩
  · intro st st' uid husers hwu hwo
    rw [calculate_max_raise_fst, calculate_max_raise_fst]
    simp only [cmr_formula, husers]
    cases h : alookup st.users uid with
    | none => exact le_refl 0
    | some p =>
      cases hA : active_others st.users uid with
      | nil => exact le_of_eq hwu
      | cons o rest =>
        have hm : min_list (walletOf st' o) (rest.map (walletOf st')) ≤
            min_list (walletOf st o) (rest.map (walletOf st)) := by
          refine min_list_map_mono _ _ rest _ _ (hwo o ?_) (fun v hv => hwo v ?_)
          · rw [hA]; exact List.mem_cons_self o rest
          · rw [hA]; exact List.mem_cons_of_mem o hv
        rw [hwu]
        exact max_le_max (le_refl 0)
          (min_le_min (le_refl _) (max_le_max (le_refl 0) (sub_le_sub_right hm 1)))
  · intro st uid p amount hp hgate
    simp [start_raise, hp, hgate]

def c5_raiser : PlayerState :=
  { hand := [⟨Suit.spades, Rank.king⟩], score := 10, status := Status.playing,
    coins := 10, bet := 1, has_raised := true, is_folded := false, natural_bonus := 0 }

def c5_state : GameState :=
  { deck := [], users := [("r", c5_raiser)], pot := 1, current_raise := 0,
    initial_coins := 30, wallet_store := [("r", 10)], last_reset := some 0 }

/-- Counterexample to C5 as stated: the raiser has `has_raised = true`, yet
`calculate_max_raise` returns their full balance 10, not 0. -/
theorem calculate_max_raise_cex :
    alookup c5_state.users "r" = some c5_raiser ∧
    c5_raiser.has_raised = true ∧
    (calculate_max_raise c5_state "r").1 = 10 := by decide

def c5w_a : PlayerState :=
  { hand := [], score := 0, status := Status.playing, coins := 10, bet := 1,
    has_raised := false, is_folded := false, natural_bonus := 0 }

def c5w_b : PlayerState :=
  { hand := [], score := 0, status := Status.stand, coins := 5, bet := 1,
    has_raised := false, is_folded := false, natural_bonus := 0 }

def c5w_state : GameState :=
  { deck := [], users := [("a", c5w_a), ("b", c5w_b)], pot := 2, current_raise := 0,
    initial_coins := 30, wallet_store := [("a", 10), ("b", 5)], last_reset := some 0 }

/-- Same table after `b`'s balance dropped from 5 to 3. -/
def c5w_state2 : GameState :=
  { deck := [], users := [("a", c5w_a), ("b", c5w_b)], pot := 2, current_raise := 0,
    initial_coins := 30, wallet_store := [("a", 10), ("b", 3)], last_reset := some 0 }

/-- Witness for the amended C5: the formula, monotonicity under a balance
drop, and the `start_raise` gating all instantiated concretely. -/
theorem max_raise_formula_and_monotone_witness :
    (calculate_max_raise c5w_state "a").1 = cmr_formula c5w_state "a" ∧
    (calculate_max_raise c5w_state2 "a").1 ≤ (calculate_max_raise c5w_state "a").1 ∧
    start_raise c5_state "r" 1 = (false, c5_state) :=
  ⟨max_raise_formula_and_monotone.1 c5w_state "a",
   max_raise_formula_and_monotone.2.1 c5w_state c5w_state2 "a" rfl (by decide)
     (by decide),
   max_raise_formula_and_monotone.2.2 c5_state "r" c5_raiser 1 rfl (Or.inl rfl)⟩

/-! ### The effect of `update_score` and `deal_card` as state transformers -/

/-- The player record `update_score` writes back. -/
def score_update (p : PlayerState) : PlayerState :=
  if 21 < scoreOfHand p.hand then
    { p with score := scoreOfHand p.hand, status := Status.bust, is_folded := true }
  else { p with score := scoreOfHand p.hand }

theorem update_score_eq (st : GameState) (uid : UserId) (p : PlayerState)
    (h : alookup st.users uid = some p) :
    update_score st uid = { st with users := aset st.users uid (score_update p) } := by
  simp only [update_score, h, score_update]

theorem deal_card_eq (st : GameState) (uid : UserId) (p : PlayerState)
    (t : List Card) (c : Card)
    (hp : alookup st.users uid = some p) (hplay : p.status = Status.playing)
    (hdeck : st.deck = t ++ [c]) :
    deal_card st uid =
      (some c,
        { st with
          deck := t,
          users := aset st.users uid (score_update { p with hand := p.hand ++ [c] }) }) := by
  simp only [deal_card, hp]
  rw [if_neg (by simp [hplay])]
  rw [hdeck]
  have hlast : (t ++ [c]).getLast? = some c := by
    rw [show t ++ [c] = (t ++ []) ++ [c] by simp]
    exact List.getLast?_concat _
  have hdrop : (t ++ [c]).dropLast = t := List.dropLast_concat
  simp only [hlast, hdrop]
  rw [update_score_eq _ uid { p with hand := p.hand ++ [c] } (by simp [alookup_aset]),
    aset_aset]

theorem reduceScore_of_le (base n : Nat) (h : base ≤ 21) : reduceScore base n = base := by
  cases n with
  | zero => rfl
  | succ m => simp [reduceScore, Nat.not_lt.mpr h]

theorem reduceScore_le (base n : Nat) (h : base ≤ 21 + 10 * n) :
    reduceScore base n ≤ 21 := by
  induction n generalizing base with
  | zero => simpa [reduceScore] using h
  | succ m ih =>
    by_cases hb : 21 < base
    · simp only [reduceScore, hb, if_true]
      exact ih (base - 10) (by omega)
    · simp only [reduceScore, hb, if_false]
      omega

theorem card_score_value_le (r : Rank) : card_score_value r ≤ 11 := by
  cases r <;> decide

theorem card_score_value_le_of_ne_ace (r : Rank) (h : r ≠ Rank.ace) :
    card_score_value r ≤ 10 := by
  cases r <;> simp_all [card_score_value]

theorem scoreOfHand_single_le (x : Card) : scoreOfHand [x] ≤ 21 := by
  have h1 : rawScore [x] = card_score_value x.rank := by simp [rawScore]
  have := card_score_value_le x.rank
  unfold scoreOfHand
  rw [h1, reduceScore_of_le _ _ (by omega)]
  omega

theorem scoreOfHand_pair_le (x y : Card) : scoreOfHand [x, y] ≤ 21 := by
  have h1 : rawScore [x, y] = card_score_value x.rank + card_score_value y.rank := by
    simp [rawScore]
  unfold scoreOfHand
  rw [h1]
  apply reduceScore_le
  by_cases hx : x.rank = Rank.ace
  · by_cases hy : y.rank = Rank.ace
    · simp [aceCount, hx, hy, card_score_value]
    · have := card_score_value_le_of_ne_ace y.rank hy
      have hxv : card_score_value x.rank = 11 := by rw [hx]; rfl
      have hc : 1 ≤ aceCount [x, y] := by
        have hmem : x ∈ List.filter (fun c => decide (c.rank = Rank.ace)) [x, y] :=
          List.mem_filter.mpr ⟨by simp, by simp [hx]⟩
        have hpos := List.length_pos.mpr (List.ne_nil_of_mem hmem)
        simpa [aceCount] using hpos
      omega
  · have hxv := card_score_value_le_of_ne_ace x.rank hx
    have hyv := card_score_value_le x.rank
    by_cases hy : y.rank = Rank.ace
    · have hyv2 : card_score_value y.rank = 11 := by rw [hy]; rfl
      have hc : 1 ≤ aceCount [x, y] := by
        have hmem : y ∈ List.filter (fun c => decide (c.rank = Rank.ace)) [x, y] :=
          List.mem_filter.mpr ⟨by simp, by simp [hy]⟩
        have hpos := List.length_pos.mpr (List.ne_nil_of_mem hmem)
        simpa [aceCount] using hpos
      omega
    · have := card_score_value_le_of_ne_ace y.rank hy
      omega

theorem exists_concat_two {α : Type} (l : List α) (h : 2 ≤ l.length) :
    ∃ (t : List α) (b a : α), l = t ++ [b, a] := by
  rcases hr : l.reverse with _ | ⟨a, tl⟩
  · have : l = [] := by simpa using congrArg List.reverse hr
    subst this; simp at h
  · rcases tl with _ | ⟨b, t⟩
    · have : l = [a] := by simpa using congrArg List.reverse hr
      subst this; simp at h
    · refine ⟨t.reverse, b, a, ?_⟩
      have := congrArg List.reverse hr
      simpa using this

theorem get_coins_of_unseated (st : GameState) (uid : UserId)
    (h : alookup st.users uid = none) :
    get_coins st uid = (walletOf st uid, ensure_wallet st uid) := by
  simp only [get_coins, ensure_wallet_users, h, ensure_wallet_lookup_self, Option.getD_some]

theorem set_coins_eq_of_some (st : GameState) (uid : UserId) (a : Int) (p : PlayerState)
    (h : alookup st.users uid = some p) :
    set_coins st uid a =
      { st with
        wallet_store := aset st.wallet_store uid a,
        users := aset st.users uid { p with coins := a } } := by
  simp only [set_coins, h]

theorem score_update_of_le (p : PlayerState) (h : scoreOfHand p.hand ≤ 21) :
    score_update p = { p with score := scoreOfHand p.hand } := by
  simp [score_update, Nat.not_lt.mpr h]

/-- Running `add_user` on a same-day state with enough cards, a fresh
identity, and an affordable ante: the exact state it produces before the
card-dealing tail. -/
theorem add_user_run (d : Nat) (st : GameState) (uid : UserId)
    (hq : st.last_reset = some d)
    (hdeck2 : 2 ≤ st.deck.length)
    (hun : alookup st.users uid = none)
    (hbal : 1 ≤ walletOf st uid) :
    add_user d st uid =
      (true,
        natural_step
          (deal_initial_cards
            { ensure_wallet st uid with
              users := aset st.users uid (join_player (walletOf st uid)),
              wallet_store :=
                aset (ensure_wallet st uid).wallet_store uid (walletOf st uid - 1),
              pot := st.pot + 1 } uid) uid) := by
  have hqr : check_and_reset_coins d st = st := check_and_reset_of_quiet d st d hq (by omega)
  have hcj : can_join st uid = true := by
    simp only [can_join, hun]
    rw [if_neg (by omega)]
    simp
  simp only [add_user, hqr]
  rw [if_neg (by simp [hcj]), get_coins_of_unseated st uid hun]
  dsimp only
  rw [if_neg (not_lt.mpr hbal)]
  simp only [ensure_wallet_users]
  rw [set_coins_eq_of_some
      { ensure_wallet st uid with
        users := aset st.users uid (join_player (walletOf st uid)) }
      uid (walletOf st uid - 1) (join_player (walletOf st uid))
      (by simp [alookup_aset]), aset_aset]
  simp only [ensure_wallet_pot]
  rfl

/-- Dealing the two initial cards to a freshly seated playing player with an
empty hand pops the deck's last two cards and stores the recomputed
score. -/
theorem deal_initial_run (st : GameState) (uid : UserId) (p : PlayerState)
    (t : List Card) (b a : Card)
    (hp : alookup st.users uid = some p) (hplay : p.status = Status.playing)
    (hhand : p.hand = []) (hdeck : st.deck = t ++ [b, a]) :
    deal_initial_cards st uid =
      { st with
        deck := t,
        users := aset st.users uid
          { p with hand := [a, b], score := scoreOfHand [a, b] } } := by
  simp only [deal_initial_cards]
  have h1 : st.deck = (t ++ [b]) ++ [a] := by rw [hdeck]; simp
  rw [deal_card_eq st uid p (t ++ [b]) a hp hplay h1]
  dsimp only
  rw [hhand]
  simp only [List.nil_append]
  rw [score_update_of_le { p with hand := [a] } (scoreOfHand_single_le a)]
  rw [deal_card_eq _ uid { p with hand := [a], score := scoreOfHand [a] } t b
      (by simp [alookup_aset]) hplay rfl]
  dsimp only
  simp only [List.cons_append, List.nil_append]
  rw [score_update_of_le { p with hand := [a, b], score := scoreOfHand [a] }
      (scoreOfHand_pair_le a b), aset_aset]

theorem natural_step_eq (st : GameState) (uid : UserId) (q : PlayerState)
    (h : alookup st.users uid = some q) :
    natural_step st uid =
      if natural_hand q.hand then
        { st with users := aset st.users uid { q with natural_bonus := 5 } }
      else st := by
  simp only [natural_step, h]

/-- `add_user` succeeds exactly when the deck holds at least two cards, the
identity is absent from the player map, and the balance covers the ante. -/
theorem add_user_succeeds_iff (d : Nat) (st : GameState) (uid : UserId)
    (hq : st.last_reset = some d) :
    (add_user d st uid).1 = true ↔
      (2 ≤ st.deck.length ∧ alookup st.users uid = none ∧ 1 ≤ walletOf st uid) := by
  have hqr : check_and_reset_coins d st = st :=
    check_and_reset_of_quiet d st d hq (by omega)
  constructor
  · intro h
    by_cases h1 : 2 ≤ st.deck.length
    · cases h2 : alookup st.users uid with
      | some p =>
        have hcj : can_join st uid = false := by simp [can_join, h2]
        simp [add_user, hqr, hcj] at h
      | none =>
        by_cases h3 : 1 ≤ walletOf st uid
        · exact ⟨h1, rfl, h3⟩
        · have hcj : can_join st uid = true := by
            simp only [can_join, h2]
            rw [if_neg (by omega)]
            simp
          have hrun : add_user d st uid = (false, (get_coins st uid).2) := by
            simp only [add_user, hqr]
            rw [if_neg (by simp [hcj])]
            rw [if_pos (by rw [get_coins_fst]; omega)]
          rw [hrun] at h
          simp at h
    · have hcj : can_join st uid = false := by
        simp only [can_join]
        rw [if_pos (by omega)]
      simp [add_user, hqr, hcj] at h
  · rintro ⟨h1, h2, h3⟩
    rw [add_user_run d st uid hq h1 h2 h3]

/-- C6 amended: `add_user` succeeds exactly when the deck holds at least two
cards, the identity is not yet present in the table's player map at all
(`can_join` also rejects a returning `ready` player with no active hand; the
re-join of such players lives in the command layer), and the wallet balance
is at least 1; on success it debits exactly the 1-coin ante from the wallet,
adds 1 to the pot, deals two cards and stores the recomputed score. -/
theorem add_user_join_spec (d : Nat) (st : GameState) (uid : UserId)
    (hq : st.last_reset = some d) :
    ((add_user d st uid).1 = true ↔
      (2 ≤ st.deck.length ∧ alookup st.users uid = none ∧ 1 ≤ walletOf st uid)) ∧
    ((add_user d st uid).1 = true →
      ∃ q, alookup (add_user d st uid).2.users uid = some q ∧
        q.hand.length = 2 ∧ q.score = scoreOfHand q.hand ∧
        q.bet = 1 ∧ q.status = Status.playing ∧ q.is_folded = false ∧
        walletOf (add_user d st uid).2 uid = walletOf st uid - 1 ∧
        (add_user d st uid).2.pot = st.pot + 1) := by
  have hiff := add_user_succeeds_iff d st uid hq
  refine ⟨hiff, ?_⟩
  intro h
  obtain ⟨h1, h2, h3⟩ := hiff.mp h
  obtain ⟨t, b, a, hsplit⟩ := exists_concat_two st.deck h1
  rw [add_user_run d st uid hq h1 h2 h3]
  rw [deal_initial_run
      { ensure_wallet st uid with
        users := aset st.users uid (join_player (walletOf st uid)),
        wallet_store :=
          aset (ensure_wallet st uid).wallet_store uid (walletOf st uid - 1),
        pot := st.pot + 1 }
      uid (join_player (walletOf st uid)) t b a
      (by simp [alookup_aset]) rfl rfl (by simp [hsplit])]
  rw [natural_step_eq _ uid
      { join_player (walletOf st uid) with hand := [a, b], score := scoreOfHand [a, b] }
      (by simp [alookup_aset])]
  by_cases hn : natural_hand
      ({ join_player (walletOf st uid) with
         hand := [a, b], score := scoreOfHand [a, b] } : PlayerState).hand
  · rw [if_pos hn]
    refine ⟨{ join_player (walletOf st uid) with
              hand := [a, b], score := scoreOfHand [a, b], natural_bonus := 5 },
            ?_, rfl, rfl, rfl, rfl, rfl, ?_, rfl⟩
    · simp [alookup_aset, aset_aset]
    · simp [walletOf, alookup_aset]
  · rw [if_neg hn]
    refine ⟨{ join_player (walletOf st uid) with
              hand := [a, b], score := scoreOfHand [a, b] },
            ?_, rfl, rfl, rfl, rfl, rfl, ?_, rfl⟩
    · simp [alookup_aset, aset_aset]
    · simp [walletOf, alookup_aset]

def c6_ready_player : PlayerState :=
  { hand := [], score := 0, status := Status.ready, coins := 30, bet := 0,
    has_raised := false, is_folded := false, natural_bonus := 0 }

def c6_state : GameState :=
  { deck := [⟨Suit.clubs, Rank.r2⟩, ⟨Suit.clubs, Rank.r3⟩,
             ⟨Suit.clubs, Rank.r4⟩, ⟨Suit.clubs, Rank.r5⟩],
    users := [("carol", c6_ready_player)], pot := 0, current_raise := 0,
    initial_coins := 30, wallet_store := [("carol", 30)], last_reset := some 5 }

/-- Counterexample to C6 as stated: `carol` is seated but `ready` with no
active hand, the deck has 4 cards and her balance is 30, yet `add_user`
declines because `can_join` rejects any identity already present in
`users`. -/
theorem add_user_join_cex :
    2 ≤ c6_state.deck.length ∧
    alookup c6_state.users "carol" = some c6_ready_player ∧
    c6_ready_player.status = Status.ready ∧
    c6_ready_player.hand = [] ∧
    1 ≤ walletOf c6_state "carol" ∧
    (add_user 5 c6_state "carol").1 = false := by decide

def c6w_state : GameState :=
  { deck := [⟨Suit.clubs, Rank.r2⟩, ⟨Suit.clubs, Rank.r3⟩,
             ⟨Suit.clubs, Rank.r4⟩, ⟨Suit.clubs, Rank.r5⟩],
    users := [], pot := 0, current_raise := 0,
    initial_coins := 30, wallet_store := [], last_reset := some 5 }

/-- Witness for the amended C6: a fresh identity joins an empty table. -/
theorem add_user_join_spec_witness :
    (add_user 5 c6w_state "dave").1 = true ∧
    (∃ q, alookup (add_user 5 c6w_state "dave").2.users "dave" = some q ∧
      q.hand.length = 2 ∧ q.score = scoreOfHand q.hand ∧
      q.bet = 1 ∧ q.status = Status.playing ∧ q.is_folded = false ∧
      walletOf (add_user 5 c6w_state "dave").2 "dave" = walletOf c6w_state "dave" - 1 ∧
      (add_user 5 c6w_state "dave").2.pot = c6w_state.pot + 1) := by
  have h := add_user_join_spec 5 c6w_state "dave" rfl
  have hok : (add_user 5 c6w_state "dave").1 = true :=
    h.1.mpr ⟨by decide, rfl, by decide⟩
  exact ⟨hok, h.2 hok⟩

/-! ### Declined operations (claim C9) -/

/-- Reachable-state invariant: every seated player's coin mirror agrees with
their wallet entry (every join creates the wallet entry and all three coin
writers update both sides). -/
def wallet_consistent (st : GameState) : Prop :=
  ∀ e ∈ st.users, alookup st.wallet_store e.fst = some e.snd.coins

theorem alookup_mem {α : Type} (l : List (String × α)) (k : String) (v : α)
    (h : alookup l k = some v) : (k, v) ∈ l := by
  induction l with
  | nil => simp [alookup] at h
  | cons hd tl ih =>
    obtain ⟨k1, v1⟩ := hd
    by_cases hk : k1 = k
    · subst hk
      simp [alookup] at h
      subst h
      exact List.mem_cons_self _ _
    · simp [alookup, hk] at h
      exact List.mem_cons_of_mem _ (ih h)

theorem wallet_consistent_lookup (st : GameState) (u : UserId) (p : PlayerState)
    (hWF : wallet_consistent st) (hp : alookup st.users u = some p) :
    alookup st.wallet_store u = some p.coins :=
  hWF (u, p) (alookup_mem _ _ _ hp)

theorem get_coins_of_consistent (st : GameState) (u : UserId) (p : PlayerState)
    (hp : alookup st.users u = some p)
    (hw : alookup st.wallet_store u = some p.coins) :
    get_coins st u = (p.coins, st) := by
  have he : ensure_wallet st u = st := by simp [ensure_wallet, hw]
  have ha : aset st.users u { p with coins := p.coins } = st.users :=
    aset_self st.users u { p with coins := p.coins } (by rw [hp])
  simp only [get_coins, he, hw, hp, Option.getD_some, ha]

theorem alookup_isSome_of_mem_keys {α : Type} (l : List (String × α)) (u : String)
    (h : u ∈ l.map Prod.fst) : (alookup l u).isSome := by
  induction l with
  | nil => simp at h
  | cons hd tl ih =>
    obtain ⟨k1, v1⟩ := hd
    by_cases hk : k1 = u
    · simp [alookup, hk]
    · simp only [List.map_cons, List.mem_cons] at h
      rcases h with h | h

      · exact absurd h.symm hk
      · simp only [alookup, hk, if_false]
        exact ih h

theorem alookup_isSome_of_mem_active (l : List (UserId × PlayerState)) (r u : UserId)
    (h : u ∈ active_others l r) : (alookup l u).isSome := by
  apply alookup_isSome_of_mem_keys
  simp only [active_others, List.mem_map] at h
  obtain ⟨e, he, hfst⟩ := h
  exact List.mem_map.mpr ⟨e, (List.mem_filter.mp he).1, hfst⟩

theorem get_coins_list_of_consistent (st : GameState) (l : List UserId)
    (hWF : wallet_consistent st)
    (hl : ∀ u ∈ l, (alookup st.users u).isSome) :
    get_coins_list st l = (l.map (fun u => (alookup st.users u).elim 0 PlayerState.coins), st) := by
  induction l with
  | nil => rfl
  | cons u rest ih =>
    cases hp : alookup st.users u with
    | none =>
      have := hl u (List.mem_cons_self u rest)
      rw [hp] at this
      simp at this
    | some p =>
      have hgc : get_coins st u = (p.coins, st) :=
        get_coins_of_consistent st u p hp (wallet_consistent_lookup st u p hWF hp)
      simp only [get_coins_list, hgc, List.map_cons, hp,
        ih (fun v hv => hl v (List.mem_cons_of_mem u hv))]
      rfl

theorem calculate_max_raise_snd_of_consistent (st : GameState) (uid : UserId)
    (hWF : wallet_consistent st) :
    (calculate_max_raise st uid).2 = st := by
  simp only [calculate_max_raise]
  cases hp : alookup st.users uid with
  | none => rfl
  | some p =>
    have hgc : get_coins st uid = (p.coins, st) :=
      get_coins_of_consistent st uid p hp (wallet_consistent_lookup st uid p hWF hp)
    rw [hgc]
    dsimp only
    cases hA : active_others st.users uid with
    | nil => rfl
    | cons o rest =>
      have hlist := get_coins_list_of_consistent st (o :: rest) hWF
        (fun u hu => alookup_isSome_of_mem_active st.users uid u (hA ▸ hu))
      dsimp only
      rw [hlist]

/-- C9: every engine operation invoked with a failing precondition (wrong
status, insufficient funds, amount outside `[1, max]`, no active raise,
empty deck, duplicate join, …) returns a declined result and leaves the
whole engine and wallet state exactly unchanged.  Hypotheses: for
`add_user`, the daily reset must not fire during the call (its
`check_and_reset_coins` runs first and is a separate specified effect) and
the configured initial balance is at least the 1-coin ante; for
`start_raise` / `respond_to_raise`, the seated coin mirrors agree with the
wallet (true of every reachable state). -/
theorem declined_ops_leave_state_unchanged :
    (∀ (d : Nat) (st : GameState) (uid : UserId),
      st.last_reset = some d → 1 ≤ st.initial_coins →
      (add_user d st uid).1 = false → (add_user d st uid).2 = st) ∧
    (∀ (st : GameState) (uid : UserId) (amount : Int),
      wallet_consistent st →
      (start_raise st uid amount).1 = false → (start_raise st uid amount).2 = st) ∧
    (∀ (st : GameState) (uid : UserId) (action : String),
      wallet_consistent st →
      (respond_to_raise st uid action).1 = false → (respond_to_raise st uid action).2 = st) ∧
    (∀ (st : GameState) (uid : UserId),
      (deal_card st uid).1 = none → (deal_card st uid).2 = st) := by
  refine ⟨?_, ?_, ?_, ?_⟩
  · intro d st uid hq hinit h
    have hqr : check_and_reset_coins d st = st :=
      check_and_reset_of_quiet d st d hq (by omega)
    by_cases hcj : can_join st uid = true
    · have hun : alookup st.users uid = none := by
        by_contra hns
        cases hl : alookup st.users uid with
        | none => exact hns hl
        | some p => simp [can_join, hl] at hcj
      cases hw : alookup st.wallet_store uid with
      | some c =>
        have he : ensure_wallet st uid = st := by simp [ensure_wallet, hw]
        have hgc : get_coins st uid = (walletOf st uid, st) := by
          rw [get_coins_of_unseated st uid hun, he]
        by_cases hlow : walletOf st uid < 1
        · simp only [add_user, hqr]
          rw [if_neg (by simp [hcj]), hgc]
          rw [if_pos hlow]
        · exfalso
          have := add_user_run d st uid hq ?_ hun (by omega)
          · rw [this] at h; simp at h
          · by_contra hdl
            simp [can_join] at hcj
            omega
      | none =>
        have hwin : walletOf st uid = st.initial_coins := by
          simp [walletOf, hw]
        exfalso
        have := add_user_run d st uid hq ?_ hun (by omega)
        · rw [this] at h; simp at h
        · by_contra hdl
          simp [can_join] at hcj
          omega
    · simp only [add_user, hqr]
      rw [if_pos (by simpa using hcj)]
  · intro st uid amount hWF h
    simp only [start_raise] at h ⊢
    cases hp : alookup st.users uid with
    | none => rfl
    | some p =>
      simp only [hp] at h ⊢
      by_cases c1 : p.has_raised = true ∨ p.is_folded = true ∨ p.status ≠ Status.playing
      · rw [if_pos c1]
      · rw [if_neg c1] at h ⊢
        have hmr : (calculate_max_raise st uid).2 = st :=
          calculate_max_raise_snd_of_consistent st uid hWF
        by_cases c2 : amount < 1 ∨ (calculate_max_raise st uid).1 < amount
        · rw [if_pos c2] at h ⊢
          exact hmr
        · rw [if_neg c2] at h ⊢
          rw [hmr] at h ⊢
          have hgc : get_coins st uid = (p.coins, st) :=
            get_coins_of_consistent st uid p hp (wallet_consistent_lookup st uid p hWF hp)
          rw [hgc] at h ⊢
          dsimp only at h ⊢
          by_cases c3 : p.coins < amount
          · rw [if_pos c3]
          · rw [if_neg c3] at h
            rw [adjust_coins_users_of_some st uid (-amount) p hp] at h
            simp [alookup_aset] at h
  · intro st uid action hWF h
    simp only [respond_to_raise] at h ⊢
    cases hp : alookup st.users uid with
    | none => rfl
    | some p =>
      simp only [hp] at h ⊢
      by_cases c1 : p.is_folded = true ∨ p.status ≠ Status.playing
      · rw [if_pos c1]
      · rw [if_neg c1] at h ⊢
        by_cases c2 : st.current_raise ≤ 0
        · rw [if_pos c2]
        · rw [if_neg c2] at h ⊢
          by_cases c3 : action = "call"
          · rw [if_pos c3] at h ⊢
            have hgc : get_coins st uid = (p.coins, st) :=
              get_coins_of_consistent st uid p hp (wallet_consistent_lookup st uid p hWF hp)
            rw [hgc] at h ⊢
            dsimp only at h ⊢
            by_cases c4 : p.coins < st.current_raise
            · rw [if_pos c4]
            · rw [if_neg c4] at h
              rw [adjust_coins_users_of_some st uid (-st.current_raise) p hp] at h
              simp [alookup_aset] at h
          · rw [if_neg c3] at h ⊢
            by_cases c5 : action = "fold"
            · rw [if_pos c5] at h; simp at h
            · rw [if_neg c5]
  · intro st uid h
    simp only [deal_card] at h ⊢
    cases hp : alookup st.users uid with
    | none => rfl
    | some p =>
      simp only [hp] at h ⊢
      by_cases c1 : p.status ≠ Status.playing
      · rw [if_pos c1]
      · rw [if_neg c1] at h ⊢
        cases hL : st.deck.getLast? with
        | none => rfl
        | some card => rw [hL] at h; simp at h

def c9_player : PlayerState :=
  { hand := [⟨Suit.spades, Rank.king⟩], score := 10, status := Status.playing,
    coins := 7, bet := 1, has_raised := false, is_folded := false, natural_bonus := 0 }

def c9_state : GameState :=
  { deck := [], users := [("a", c9_player)], pot := 1, current_raise := 0,
    initial_coins := 30, wallet_store := [("a", 7)], last_reset := some 2 }

/-- Witness for C9: a duplicate join, an out-of-range raise, a call with no
open raise, and a draw from an empty deck are all declined without touching
the state. -/
theorem declined_ops_leave_state_unchanged_witness :
    ((add_user 2 c9_state "a").1 = false ∧ (add_user 2 c9_state "a").2 = c9_state) ∧
    ((start_raise c9_state "a" 0).1 = false ∧ (start_raise c9_state "a" 0).2 = c9_state) ∧
    ((respond_to_raise c9_state "a" "call").1 = false ∧
      (respond_to_raise c9_state "a" "call").2 = c9_state) ∧
    ((deal_card c9_state "a").1 = none ∧ (deal_card c9_state "a").2 = c9_state) := by
  have h := declined_ops_leave_state_unchanged
  have hwc : wallet_consistent c9_state := by
    intro e he
    have : e = ("a", c9_player) := by simpa [c9_state] using he
    subst this
    decide
  exact ⟨⟨by decide, h.1 2 c9_state "a" rfl (by decide) (by decide)⟩,
         ⟨by decide, h.2.1 c9_state "a" 0 hwc (by decide)⟩,
         ⟨by decide, h.2.2.1 c9_state "a" "call" hwc (by decide)⟩,
         ⟨by decide, h.2.2.2 c9_state "a" (by decide)⟩⟩

/-! ### Congruence and membership lemmas for the resolution pipeline -/

theorem alookup_eq_of_mem_nodup {α : Type} (l : List (String × α))
    (hnd : (l.map Prod.fst).Nodup) (k : String) (v : α) (h : (k, v) ∈ l) :
    alookup l k = some v := by
  induction l with
  | nil => simp at h
  | cons hd tl ih =>
    obtain ⟨k1, v1⟩ := hd
    simp only [List.map_cons, List.nodup_cons] at hnd
    rcases List.mem_cons.mp h with hh | ht
    · injection hh with h1 h2
      subst h1; subst h2
      simp [alookup]
    · have hk : k1 ≠ k := by
        intro he
        subst he
        exact hnd.1 (List.mem_map.mpr ⟨(k1, v), ht, rfl⟩)
      simp only [alookup, hk, if_false]
      exact ih hnd.2 ht

theorem score_of_strip_congr (st1 st2 : GameState)
    (h : users_strip st1.users = users_strip st2.users) (u : UserId) :
    score_of st1 u = score_of st2 u := by
  have hc := alookup_strip_congr st1.users st2.users h u
  simp only [score_of]
  cases h1 : alookup st1.users u with
  | none =>
    rw [h1] at hc
    cases h2 : alookup st2.users u with
    | none => rfl
    | some q => rw [h2] at hc; simp at hc
  | some p =>
    rw [h1] at hc
    cases h2 : alookup st2.users u with
    | none => rw [h2] at hc; simp at hc
    | some q =>
      rw [h2] at hc
      simp only [Option.map_some'] at hc
      exact (strip_coins_fields p q (by injection hc)).2.1

theorem survivors_strip_congr (st1 st2 : GameState)
    (h : users_strip st1.users = users_strip st2.users) :
    survivors st1 = survivors st2 := by
  simp only [survivors]
  revert h
  generalize st1.users = l1
  generalize st2.users = l2
  intro h
  induction l1 generalizing l2 with
  | nil =>
    cases l2 with
    | nil => rfl
    | cons hd2 tl2 => simp [users_strip] at h
  | cons hd tl ih =>
    cases l2 with
    | nil => simp [users_strip] at h
    | cons hd2 tl2 =>
      obtain ⟨k1, p1⟩ := hd
      obtain ⟨k2, p2⟩ := hd2
      simp only [users_strip_cons, List.cons.injEq, Prod.mk.injEq] at h
      obtain ⟨⟨hk, hp⟩, htl⟩ := h
      subst hk
      obtain ⟨hh, -, hst, hb, -, hf, -⟩ := strip_coins_fields p1 p2 hp
      have hpred : (in_round p1 && is_active p1) = (in_round p2 && is_active p2) := by
        simp only [in_round, is_active, hst, hf, hb, hh]
      have ihe := ih tl2 htl
      simp only [List.filter_cons]
      rw [hpred]
      cases hb2 : (in_round p2 && is_active p2) <;> simp [hb2, ihe]

theorem round_ids_strip_congr (st1 st2 : GameState)
    (h : users_strip st1.users = users_strip st2.users) :
    round_player_ids st1 = round_player_ids st2 := by
  simp only [round_player_ids]
  revert h
  generalize st1.users = l1
  generalize st2.users = l2
  intro h
  induction l1 generalizing l2 with
  | nil =>
    cases l2 with
    | nil => rfl
    | cons hd2 tl2 => simp [users_strip] at h
  | cons hd tl ih =>
    cases l2 with
    | nil => simp [users_strip] at h
    | cons hd2 tl2 =>
      obtain ⟨k1, p1⟩ := hd
      obtain ⟨k2, p2⟩ := hd2
      simp only [users_strip_cons, List.cons.injEq, Prod.mk.injEq] at h
      obtain ⟨⟨hk, hp⟩, htl⟩ := h
      subst hk
      obtain ⟨hh, -, hst, hb, -, -, -⟩ := strip_coins_fields p1 p2 hp
      have hpred : in_round p1 = in_round p2 := by
        simp only [in_round, hst, hb, hh]
      have ihe := ih tl2 htl
      simp only [List.filter_cons]
      rw [hpred]
      cases hb2 : in_round p2 <;> simp [hb2, ihe]

theorem top_score_strip_congr (st1 st2 : GameState)
    (h : users_strip st1.users = users_strip st2.users) :
    top_score st1 = top_score st2 := by
  simp only [top_score, survivors_strip_congr st1 st2 h]
  cases survivors st2 with
  | nil => rfl
  | cons a arest =>
    dsimp only
    rw [score_of_strip_congr st1 st2 h a]
    rw [show arest.map (score_of st1) = arest.map (score_of st2) from
      List.map_congr_left (fun u _ => score_of_strip_congr st1 st2 h u)]

theorem winners_of_strip_congr (st1 st2 : GameState)
    (h : users_strip st1.users = users_strip st2.users) :
    winners_of st1 = winners_of st2 := by
  simp only [winners_of, survivors_strip_congr st1 st2 h,
    top_score_strip_congr st1 st2 h]
  exact List.filter_congr (fun u _ => by
    rw [score_of_strip_congr st1 st2 h u])

theorem survivors_nodup (st : GameState) (hnd : (st.users.map Prod.fst).Nodup) :
    (survivors st).Nodup := by
  have hsub : (st.users.filter (fun e => in_round e.snd && is_active e.snd)).Sublist st.users :=
    List.filter_sublist _
  exact (hsub.map Prod.fst).nodup hnd

theorem winners_nodup (st : GameState) (hnd : (st.users.map Prod.fst).Nodup) :
    (winners_of st).Nodup :=
  (survivors_nodup st hnd).filter _

theorem mem_survivors_elim (st : GameState) (u : UserId)
    (hnd : (st.users.map Prod.fst).Nodup) (h : u ∈ survivors st) :
    ∃ p, alookup st.users u = some p ∧ in_round p = true ∧ is_active p = true := by
  simp only [survivors, List.mem_map] at h
  obtain ⟨e, he, hfst⟩ := h
  obtain ⟨k, p⟩ := e
  have hku : k = u := hfst
  subst hku
  have hm := List.mem_filter.mp he
  refine ⟨p, alookup_eq_of_mem_nodup st.users hnd k p hm.1, ?_, ?_⟩
  · exact (Bool.and_eq_true_iff.mp hm.2).1
  · exact (Bool.and_eq_true_iff.mp hm.2).2

theorem mem_winners_mem_survivors (st : GameState) (u : UserId)
    (h : u ∈ winners_of st) : u ∈ survivors st :=
  (List.mem_filter.mp h).1

theorem mem_survivors_mem_round (st : GameState) (u : UserId)
    (h : u ∈ survivors st) : u ∈ round_player_ids st := by
  simp only [survivors, List.mem_map] at h
  obtain ⟨e, he, hfst⟩ := h
  have hm := List.mem_filter.mp he
  refine List.mem_map.mpr ⟨e, List.mem_filter.mpr ⟨hm.1, ?_⟩, hfst⟩
  exact (Bool.and_eq_true_iff.mp hm.2).1

theorem round_ids_nodup (st : GameState) (hnd : (st.users.map Prod.fst).Nodup) :
    (round_player_ids st).Nodup := by
  have hsub : (st.users.filter (fun e => in_round e.snd)).Sublist st.users :=
    List.filter_sublist _
  exact (hsub.map Prod.fst).nodup hnd

theorem mem_round_elim (st : GameState) (u : UserId)
    (hnd : (st.users.map Prod.fst).Nodup) (h : u ∈ round_player_ids st) :
    ∃ p, alookup st.users u = some p ∧ in_round p = true := by
  simp only [round_player_ids, List.mem_map] at h
  obtain ⟨e, he, hfst⟩ := h
  obtain ⟨k, p⟩ := e
  have hku : k = u := hfst
  subst hku
  have hm := List.mem_filter.mp he
  exact ⟨p, alookup_eq_of_mem_nodup st.users hnd k p hm.1, hm.2⟩

/-- The bet `resolve_round`'s refund loop reads for a user. -/
def bet_of (st : GameState) (u : UserId) : Int :=
  match alookup st.users u with
  | none => 0
  | some p => p.bet

/-- The natural bonus `resolve_round` actually pays a user: the recorded
bonus if the player is neither busted nor folded, otherwise nothing. -/
def bonus_due (st : GameState) (u : UserId) : Int :=
  match alookup st.users u with
  | none => 0
  | some p =>
    if p.natural_bonus ≠ 0 ∧ p.status ≠ Status.bust ∧ p.is_folded = false then
      p.natural_bonus
    else 0

/-- The hand the summary renders for a user. -/
def hand_of (st : GameState) (u : UserId) : List Card :=
  match alookup st.users u with
  | none => []
  | some p => p.hand

/-- The recorded natural bonus the summary reports for a user. -/
def bonus_field (st : GameState) (u : UserId) : Int :=
  match alookup st.users u with
  | none => 0
  | some p => p.natural_bonus

theorem lookup_strip_fields_congr (st1 st2 : GameState)
    (h : users_strip st1.users = users_strip st2.users) (u : UserId) :
    bet_of st1 u = bet_of st2 u ∧ bonus_due st1 u = bonus_due st2 u ∧
    hand_of st1 u = hand_of st2 u ∧ bonus_field st1 u = bonus_field st2 u ∧
    (alookup st1.users u).isSome = (alookup st2.users u).isSome := by
  have hc := alookup_strip_congr st1.users st2.users h u
  cases h1 : alookup st1.users u with
  | none =>
    rw [h1] at hc
    cases h2 : alookup st2.users u with
    | none => exact ⟨by simp [bet_of, h1, h2], by simp [bonus_due, h1, h2],
        by simp [hand_of, h1, h2], by simp [bonus_field, h1, h2], by simp⟩
    | some q => rw [h2] at hc; simp at hc
  | some p =>
    rw [h1] at hc
    cases h2 : alookup st2.users u with
    | none => rw [h2] at hc; simp at hc
    | some q =>
      rw [h2] at hc
      simp only [Option.map_some'] at hc
      obtain ⟨-, -, hst, hb, -, hf, hnb⟩ := strip_coins_fields p q (by injection hc)
      obtain ⟨hh, -, -, -, -, -, -⟩ := strip_coins_fields p q (by injection hc)
      refine ⟨by simp [bet_of, h1, h2, hb], ?_, by simp [hand_of, h1, h2, hh],
        by simp [bonus_field, h1, h2, hnb], by simp⟩
      simp only [bonus_due, h1, h2, hst, hf, hnb]

/-! ### The pot-distribution loop -/

theorem pay_winners_pot (ws : List UserId) (st : GameState) (share rem : Int) (i : Nat) :
    (pay_winners st ws share rem i).pot = st.pot := by
  induction ws generalizing st i with
  | nil => rfl
  | cons u rest ih =>
    simp only [pay_winners, ih]
    split <;> simp

theorem pay_winners_users_strip (ws : List UserId) (st : GameState) (share rem : Int) (i : Nat) :
    users_strip (pay_winners st ws share rem i).users = users_strip st.users := by
  induction ws generalizing st i with
  | nil => rfl
  | cons u rest ih =>
    simp only [pay_winners, ih]
    split <;> simp [users_strip_adjust_coins]

theorem pay_winners_walletOf_not_mem (ws : List UserId) (st : GameState)
    (share rem : Int) (i : Nat) (v : UserId) (hv : v ∉ ws) :
    walletOf (pay_winners st ws share rem i) v = walletOf st v := by
  induction ws generalizing st i with
  | nil => rfl
  | cons u rest ih =>
    have hvu : v ≠ u := fun he => hv (he ▸ List.mem_cons_self u rest)
    have hvr : v ∉ rest := fun he => hv (List.mem_cons_of_mem u he)
    simp only [pay_winners, ih _ _ hvr]
    split <;> simp [walletOf_adjust_coins, hvu]

theorem pay_winners_walletOf_get (ws : List UserId) (hnd : ws.Nodup)
    (st : GameState) (share rem : Int) (i : Nat) (j : Nat) (hj : j < ws.length) :
    walletOf (pay_winners st ws share rem i) (ws.get ⟨j, hj⟩) =
      walletOf st (ws.get ⟨j, hj⟩) + share +
        (if ((i + j : Nat) : Int) < rem then 1 else 0) := by
  induction ws generalizing st i j with
  | nil => simp at hj
  | cons u rest ih =>
    have hnd' := List.nodup_cons.mp hnd
    cases j with
    | zero =>
      simp only [List.get]
      have hstep : ∀ st2, walletOf (pay_winners st2 rest share rem (i + 1)) u = walletOf st2 u :=
        fun st2 => pay_winners_walletOf_not_mem rest st2 share rem (i + 1) u hnd'.1
      simp only [pay_winners, hstep]
      split
      · simp [walletOf_adjust_coins, Nat.add_zero, *]
      · simp [walletOf_adjust_coins, Nat.add_zero, *]
    | succ k =>
      have hk : k < rest.length := by simpa using hj
      have hw : (u :: rest).get ⟨k + 1, hj⟩ = rest.get ⟨k, hk⟩ := rfl
      rw [hw]
      have hvu : rest.get ⟨k, hk⟩ ≠ u := by
        intro he
        exact hnd'.1 (he ▸ rest.get_mem k hk)
      simp only [pay_winners]
      rw [ih hnd'.2 _ (i + 1) k hk]
      rw [show i + 1 + k = i + (k + 1) from by omega]
      have h2 : walletOf
          (if (i : Int) < rem then (adjust_coins (adjust_coins st u share).2 u 1).2
           else (adjust_coins st u share).2) (rest.get ⟨k, hk⟩) =
          walletOf st (rest.get ⟨k, hk⟩) := by
        have hvu2 : ¬(rest[k] = u) := by simpa using hvu
        split <;> simp [walletOf_adjust_coins, hvu2]
      rw [h2]

/-! ### The bonus and refund loops -/

theorem pay_bonuses_step (st : GameState) (u : UserId) :
    ∃ st1, (∀ rest, pay_bonuses st (u :: rest) = pay_bonuses st1 rest) ∧
      (∀ x, walletOf st1 x = walletOf st x + (if x = u then bonus_due st u else 0)) ∧
      users_strip st1.users = users_strip st.users ∧ st1.pot = st.pot := by
  cases hp : alookup st.users u with
  | none =>
    refine ⟨st, fun rest => by simp only [pay_bonuses, hp], fun x => ?_, rfl, rfl⟩
    simp [bonus_due, hp]
  | some p =>
    by_cases he : p.natural_bonus ≠ 0 ∧ p.status ≠ Status.bust ∧ p.is_folded = false
    · refine ⟨(adjust_coins st u p.natural_bonus).2,
        fun rest => by simp only [pay_bonuses, hp, if_pos he], fun x => ?_,
        users_strip_adjust_coins st u _, by simp⟩
      rw [walletOf_adjust_coins]
      by_cases hxu : x = u
      · subst hxu; simp [bonus_due, hp, he]
      · simp [bonus_due, hp, he, hxu]
    · refine ⟨st, fun rest => by simp only [pay_bonuses, hp, if_neg he], fun x => ?_, rfl, rfl⟩
      simp [bonus_due, hp, he]

theorem pay_bonuses_spec (l : List UserId) (hnd : l.Nodup) (st : GameState) :
    (∀ v, walletOf (pay_bonuses st l) v =
      walletOf st v + (if v ∈ l then bonus_due st v else 0)) ∧
    users_strip (pay_bonuses st l).users = users_strip st.users ∧
    (pay_bonuses st l).pot = st.pot := by
  induction l generalizing st with
  | nil => exact ⟨fun v => by simp [pay_bonuses], rfl, rfl⟩
  | cons u rest ih =>
    have hnd' := List.nodup_cons.mp hnd
    obtain ⟨st1, hrun, hwal, hstrip, hpot⟩ := pay_bonuses_step st u
    obtain ⟨ihw, ihs, ihp⟩ := ih hnd'.2 st1
    have hbd : ∀ v, bonus_due st1 v = bonus_due st v := fun v =>
      (lookup_strip_fields_congr st1 st hstrip v).2.1
    refine ⟨fun v => ?_, by rw [hrun, ihs, hstrip], by rw [hrun, ihp, hpot]⟩
    rw [hrun, ihw v, hwal v, hbd v]
    by_cases hvu : v = u
    · subst hvu
      simp [hnd'.1, fun h => hnd'.1 h]
    · by_cases hvr : v ∈ rest
      · simp [hvr, hvu, List.mem_cons]
      · have : v ∉ u :: rest := by
          intro h
          rcases List.mem_cons.mp h with h | h
          · exact hvu h
          · exact hvr h
        simp [hvu, hvr, this]

theorem refund_bets_step (st : GameState) (u : UserId) :
    ∃ st1, (∀ rest, refund_bets st (u :: rest) = refund_bets st1 rest) ∧
      (∀ x, walletOf st1 x = walletOf st x + (if x = u then bet_of st u else 0)) ∧
      (∀ x, x ≠ u → (alookup st1.users x).map strip_coins =
        (alookup st.users x).map strip_coins) ∧
      st1.pot = st.pot := by
  cases hp : alookup st.users u with
  | none =>
    refine ⟨st, fun rest => by simp only [refund_bets, hp], fun x => ?_, fun x _ => rfl, rfl⟩
    simp [bet_of, hp]
  | some p =>
    have hq : alookup (adjust_coins st u p.bet).2.users u =
        some { p with coins := walletOf st u + p.bet } := by
      rw [adjust_coins_users_of_some st u p.bet p hp, alookup_aset]
    refine ⟨{ (adjust_coins st u p.bet).2 with
              users := aset (adjust_coins st u p.bet).2.users u
                { p with coins := walletOf st u + p.bet, bet := 0 } },
      fun rest => by simp only [refund_bets, hp, hq],
      fun x => ?_, fun x hx => ?_, by simp⟩
    · -- wallet: the bet-zeroing aset does not touch the wallet store
      have h1 : walletOf { (adjust_coins st u p.bet).2 with
          users := aset (adjust_coins st u p.bet).2.users u
            { p with coins := walletOf st u + p.bet, bet := 0 } } x =
          walletOf (adjust_coins st u p.bet).2 x := rfl
      rw [h1, walletOf_adjust_coins]
      by_cases hxu : x = u
      · subst hxu; simp [bet_of, hp]
      · simp [bet_of, hp, hxu]
    · have h1 : alookup { (adjust_coins st u p.bet).2 with
          users := aset (adjust_coins st u p.bet).2.users u
            { p with coins := walletOf st u + p.bet, bet := 0 } }.users x =
          alookup (adjust_coins st u p.bet).2.users x := by
        exact alookup_aset_ne _ _ _ _ hx
      rw [h1]
      exact alookup_strip_congr _ _ (users_strip_adjust_coins st u p.bet) x

theorem refund_bets_spec (l : List UserId) (hnd : l.Nodup) (st : GameState) :
    (∀ v, walletOf (refund_bets st l) v =
      walletOf st v + (if v ∈ l then bet_of st v else 0)) ∧
    (refund_bets st l).pot = st.pot := by
  induction l generalizing st with
  | nil => exact ⟨fun v => by simp [refund_bets], rfl⟩
  | cons u rest ih =>
    have hnd' := List.nodup_cons.mp hnd
    obtain ⟨st1, hrun, hwal, hother, hpot⟩ := refund_bets_step st u
    obtain ⟨ihw, ihp⟩ := ih hnd'.2 st1
    refine ⟨fun v => ?_, by rw [hrun, ihp, hpot]⟩
    rw [hrun, ihw v, hwal v]
    by_cases hvu : v = u
    · subst hvu
      simp [hnd'.1, fun h => hnd'.1 h]
    · have hbet : bet_of st1 v = bet_of st v := by
        have hm := hother v hvu
        simp only [bet_of]
        cases h1 : alookup st1.users v with
        | none =>
          rw [h1] at hm
          cases h2 : alookup st.users v with
          | none => rfl
          | some q => rw [h2] at hm; simp at hm
        | some p1 =>
          rw [h1] at hm
          cases h2 : alookup st.users v with
          | none => rw [h2] at hm; simp at hm
          | some q =>
            rw [h2] at hm
            simp only [Option.map_some'] at hm
            exact (strip_coins_fields p1 q (by injection hm)).2.2.2.1
      rw [hbet]
      by_cases hvr : v ∈ rest
      · simp [hvr, hvu, List.mem_cons]
      · have : v ∉ u :: rest := by
          intro h
          rcases List.mem_cons.mp h with h | h
          · exact hvu h
          · exact hvr h
        simp [hvu, hvr, this]

/-! ### Equality up to coins and bets, and the summary loop -/

/-- Forget the coin mirror and the bet of a player record. -/
def strip_cb (p : PlayerState) : PlayerState := { p with coins := 0, bet := 0 }

/-- The users map up to coins and bets. -/
def users_strip_cb (l : List (UserId × PlayerState)) : List (UserId × PlayerState) :=
  l.map (fun e => (e.fst, strip_cb e.snd))

@[simp] theorem users_strip_cb_nil : users_strip_cb [] = [] := rfl

@[simp] theorem users_strip_cb_cons (k : UserId) (p : PlayerState)
    (tl : List (UserId × PlayerState)) :
    users_strip_cb ((k, p) :: tl) = (k, strip_cb p) :: users_strip_cb tl := rfl

theorem users_strip_cb_of_strip (l1 l2 : List (UserId × PlayerState))
    (h : users_strip l1 = users_strip l2) :
    users_strip_cb l1 = users_strip_cb l2 := by
  have hc := congrArg (List.map (fun e => (e.fst, { e.snd with bet := 0 }))) h
  simpa [users_strip, users_strip_cb, List.map_map, Function.comp] using hc

theorem strip_cb_fields (p q : PlayerState) (h : strip_cb p = strip_cb q) :
    p.hand = q.hand ∧ p.score = q.score ∧ p.status = q.status ∧
    p.has_raised = q.has_raised ∧ p.is_folded = q.is_folded ∧
    p.natural_bonus = q.natural_bonus := by
  refine ⟨?_, ?_, ?_, ?_, ?_, ?_⟩
  · simpa [strip_cb] using congrArg PlayerState.hand h
  · simpa [strip_cb] using congrArg PlayerState.score h
  · simpa [strip_cb] using congrArg PlayerState.status h
  · simpa [strip_cb] using congrArg PlayerState.has_raised h
  · simpa [strip_cb] using congrArg PlayerState.is_folded h
  · simpa [strip_cb] using congrArg PlayerState.natural_bonus h

theorem users_strip_cb_aset (l : List (UserId × PlayerState)) (u : UserId) (p q : PlayerState)
    (h : alookup l u = some p) (hq : strip_cb q = strip_cb p) :
    users_strip_cb (aset l u q) = users_strip_cb l := by
  induction l with
  | nil => simp [alookup] at h
  | cons hd tl ih =>
    obtain ⟨k, w⟩ := hd
    by_cases hk : k = u
    · subst hk
      simp [alookup] at h
      subst h
      simp [aset, hq]
    · simp [alookup, hk] at h
      simp [aset, hk, ih h]

theorem alookup_strip_cb_congr (l1 l2 : List (UserId × PlayerState))
    (h : users_strip_cb l1 = users_strip_cb l2) (v : UserId) :
    (alookup l1 v).map strip_cb = (alookup l2 v).map strip_cb := by
  induction l1 generalizing l2 with
  | nil =>
    cases l2 with
    | nil => rfl
    | cons hd2 tl2 => simp [users_strip_cb] at h
  | cons hd tl ih =>
    cases l2 with
    | nil => simp [users_strip_cb] at h
    | cons hd2 tl2 =>
      obtain ⟨k1, p1⟩ := hd
      obtain ⟨k2, p2⟩ := hd2
      simp only [users_strip_cb_cons, List.cons.injEq, Prod.mk.injEq] at h
      obtain ⟨⟨hk, hp⟩, htl⟩ := h
      subst hk
      by_cases hv : k1 = v
      · simp [alookup, hv, hp]
      · simp [alookup, hv, ih tl2 htl]

theorem lookup_cb_fields_congr (st1 st2 : GameState)
    (h : users_strip_cb st1.users = users_strip_cb st2.users) (u : UserId) :
    hand_of st1 u = hand_of st2 u ∧ score_of st1 u = score_of st2 u ∧
    bonus_field st1 u = bonus_field st2 u ∧ bonus_due st1 u = bonus_due st2 u ∧
    (alookup st1.users u).isSome = (alookup st2.users u).isSome := by
  have hc := alookup_strip_cb_congr st1.users st2.users h u
  cases h1 : alookup st1.users u with
  | none =>
    rw [h1] at hc
    cases h2 : alookup st2.users u with
    | none => exact ⟨by simp [hand_of, h1, h2], by simp [score_of, h1, h2],
        by simp [bonus_field, h1, h2], by simp [bonus_due, h1, h2], by simp⟩
    | some q => rw [h2] at hc; simp at hc
  | some p =>
    rw [h1] at hc
    cases h2 : alookup st2.users u with
    | none => rw [h2] at hc; simp at hc
    | some q =>
      rw [h2] at hc
      simp only [Option.map_some'] at hc
      obtain ⟨hh, hsc, hst, -, hf, hnb⟩ := strip_cb_fields p q (by injection hc)
      refine ⟨by simp [hand_of, h1, h2, hh], by simp [score_of, h1, h2, hsc],
        by simp [bonus_field, h1, h2, hnb], ?_, by simp⟩
      simp only [bonus_due, h1, h2, hst, hf, hnb]

theorem refund_bets_users_strip_cb (l : List UserId) (st : GameState) :
    users_strip_cb (refund_bets st l).users = users_strip_cb st.users := by
  induction l generalizing st with
  | nil => rfl
  | cons u rest ih =>
    cases hp : alookup st.users u with
    | none =>
      simp only [refund_bets, hp]
      exact ih st
    | some p =>
      have hq : alookup (adjust_coins st u p.bet).2.users u =
          some { p with coins := walletOf st u + p.bet } := by
        rw [adjust_coins_users_of_some st u p.bet p hp, alookup_aset]
      simp only [refund_bets, hp, hq]
      rw [ih]
      have h1 : users_strip_cb (aset (adjust_coins st u p.bet).2.users u
          { { p with coins := walletOf st u + p.bet } with bet := 0 }) =
          users_strip_cb (adjust_coins st u p.bet).2.users :=
        users_strip_cb_aset _ u { p with coins := walletOf st u + p.bet } _ hq rfl
      have h2 : users_strip_cb (adjust_coins st u p.bet).2.users =
          users_strip_cb st.users :=
        users_strip_cb_of_strip _ _ (users_strip_adjust_coins st u p.bet)
      exact h1.trans h2

/-- The summary entry `build_results` produces for one user, phrased against
the state the loop starts from. -/
def summary_entry (st : GameState) (init : List (UserId × Int)) (u : UserId) : ResultEntry :=
  { user_id := u, hand := hand_to_string (hand_of st u), score := score_of st u,
    final_coins := walletOf st u, change := walletOf st u - (alookup init u).getD 0,
    natural_bonus := bonus_field st u }

theorem summary_entry_congr (st1 st2 : GameState) (init : List (UserId × Int))
    (hs : users_strip_cb st1.users = users_strip_cb st2.users)
    (hw : ∀ v, walletOf st1 v = walletOf st2 v) (u : UserId) :
    summary_entry st1 init u = summary_entry st2 init u := by
  obtain ⟨hh, hsc, hbf, -, -⟩ := lookup_cb_fields_congr st1 st2 hs u
  simp [summary_entry, hh, hsc, hbf, hw u]

theorem build_results_spec (l : List UserId) (st : GameState) (init : List (UserId × Int))
    (hseated : ∀ u ∈ l, (alookup st.users u).isSome) :
    (build_results st l init).1 = l.map (summary_entry st init) ∧
    (∀ v, walletOf (build_results st l init).2 v = walletOf st v) := by
  induction l generalizing st with
  | nil => exact ⟨rfl, fun v => rfl⟩
  | cons u rest ih =>
    cases hp : alookup st.users u with
    | none =>
      have := hseated u (List.mem_cons_self u rest)
      rw [hp] at this
      simp at this
    | some p =>
      have hs1 : users_strip (get_coins (get_coins st u).2 u).2.users =
          users_strip st.users := by
        rw [users_strip_get_coins, users_strip_get_coins]
      have hscb : users_strip_cb (get_coins (get_coins st u).2 u).2.users =
          users_strip_cb st.users := users_strip_cb_of_strip _ _ hs1
      have hw12 : ∀ v, walletOf (get_coins (get_coins st u).2 u).2 v = walletOf st v :=
        fun v => by rw [walletOf_get_coins, walletOf_get_coins]
      have hseated2 : ∀ x ∈ rest, (alookup (get_coins (get_coins st u).2 u).2.users x).isSome :=
        fun x hx => by
          rw [(lookup_cb_fields_congr _ st hscb x).2.2.2.2]
          exact hseated x (List.mem_cons_of_mem u hx)
      obtain ⟨ih1, ih2⟩ := ih _ hseated2
      refine ⟨?_, fun v => by
        simp only [build_results, hp]
        rw [ih2 v, hw12 v]⟩
      simp only [build_results, hp, List.map_cons]
      rw [ih1]
      congr 1
      · simp [summary_entry, hand_of, score_of, bonus_field, hp,
          get_coins_fst, walletOf_get_coins]
      · exact List.map_congr_left (fun x _ => summary_entry_congr _ _ init hscb hw12 x)

theorem alookup_zip_map (l : List UserId) (f : UserId → Int) (u : UserId) (hu : u ∈ l) :
    alookup (l.zip (l.map f)) u = some (f u) := by
  induction l with
  | nil => simp at hu
  | cons a rest ih =>
    simp only [List.map_cons, List.zip_cons_cons]
    by_cases ha : a = u
    · subst ha; simp [alookup]
    · rcases List.mem_cons.mp hu with h | h
      · exact absurd h.symm ha
      · simp [alookup, ha, ih h]

/-! ### Coins-plus-bet conservation of the betting operations -/

theorem walletOf_cmr (st : GameState) (uid v : UserId) :
    walletOf (calculate_max_raise st uid).2 v = walletOf st v := by
  simp only [calculate_max_raise]
  cases hp : alookup st.users uid with
  | none => rfl
  | some p =>
    dsimp only
    cases hA : active_others (get_coins st uid).2.users uid with
    | nil => simp [walletOf_get_coins]
    | cons o rest => simp [walletOf_get_coins_list, walletOf_get_coins]

theorem users_strip_cmr (st : GameState) (uid : UserId) :
    users_strip (calculate_max_raise st uid).2.users = users_strip st.users := by
  simp only [calculate_max_raise]
  cases hp : alookup st.users uid with
  | none => rfl
  | some p =>
    dsimp only
    cases hA : active_others (get_coins st uid).2.users uid with
    | nil => simp [users_strip_get_coins]
    | cons o rest =>
      rw [users_strip_get_coins_list, users_strip_get_coins]

theorem bet_of_strip_congr (st1 st2 : GameState)
    (h : users_strip st1.users = users_strip st2.users) (u : UserId) :
    bet_of st1 u = bet_of st2 u :=
  (lookup_strip_fields_congr st1 st2 h u).1

theorem start_raise_conserves (st : GameState) (uid : UserId) (amount : Int) (v : UserId)
    (h : (start_raise st uid amount).1 = true) :
    walletOf (start_raise st uid amount).2 v + bet_of (start_raise st uid amount).2 v =
      walletOf st v + bet_of st v := by
  simp only [start_raise] at h ⊢
  cases hp : alookup st.users uid with
  | none => simp [hp] at h
  | some p =>
    simp only [hp] at h ⊢
    by_cases c1 : p.has_raised = true ∨ p.is_folded = true ∨ p.status ≠ Status.playing
    · rw [if_pos c1] at h; simp at h
    · rw [if_neg c1] at h ⊢
      by_cases c2 : amount < 1 ∨ (calculate_max_raise st uid).1 < amount
      · rw [if_pos c2] at h; simp at h
      · rw [if_neg c2] at h ⊢
        by_cases c3 : (get_coins (calculate_max_raise st uid).2 uid).1 < amount
        · rw [if_pos c3] at h; simp at h
        · rw [if_neg c3] at h ⊢
          -- the success branch
          have hsM : users_strip (get_coins (calculate_max_raise st uid).2 uid).2.users =
              users_strip st.users := by
            rw [users_strip_get_coins, users_strip_cmr]
          have hsA : users_strip (adjust_coins (get_coins (calculate_max_raise st uid).2 uid).2
              uid (-amount)).2.users = users_strip st.users := by
            rw [users_strip_adjust_coins, hsM]
          obtain ⟨q, hq, hstrip⟩ :=
            alookup_strip_some st.users _ (by rw [hsA]) uid p hp
          rw [hq] at h ⊢
          have hwA : ∀ x, walletOf (adjust_coins (get_coins (calculate_max_raise st uid).2 uid).2
              uid (-amount)).2 x = walletOf st x + (if x = uid then -amount else 0) := by
            intro x
            rw [walletOf_adjust_coins]
            by_cases hx : x = uid
            · subst hx; simp [walletOf_get_coins, walletOf_cmr]
            · simp [hx, walletOf_get_coins, walletOf_cmr]
          have hqbet : q.bet = p.bet := (strip_coins_fields q p (hstrip.symm)).2.2.2.1
          by_cases hv : v = uid
          · subst hv
            have hbet : bet_of { (adjust_coins (get_coins (calculate_max_raise st v).2 v).2
                v (-amount)).2 with
                users := aset (adjust_coins (get_coins (calculate_max_raise st v).2 v).2
                  v (-amount)).2.users v
                  { q with bet := q.bet + amount, has_raised := true },
                pot := (adjust_coins (get_coins (calculate_max_raise st v).2 v).2
                  v (-amount)).2.pot + amount,
                current_raise := amount } v = q.bet + amount := by
              simp [bet_of, alookup_aset]
            rw [hbet]
            have hwal : walletOf { (adjust_coins (get_coins (calculate_max_raise st v).2 v).2
                v (-amount)).2 with
                users := aset (adjust_coins (get_coins (calculate_max_raise st v).2 v).2
                  v (-amount)).2.users v
                  { q with bet := q.bet + amount, has_raised := true },
                pot := (adjust_coins (get_coins (calculate_max_raise st v).2 v).2
                  v (-amount)).2.pot + amount,
                current_raise := amount } v =
                walletOf (adjust_coins (get_coins (calculate_max_raise st v).2 v).2
                  v (-amount)).2 v := rfl
            rw [hwal, hwA v]
            simp [bet_of, hp, hqbet]
            ring
          · have hbet : bet_of { (adjust_coins (get_coins (calculate_max_raise st uid).2 uid).2
                uid (-amount)).2 with
                users := aset (adjust_coins (get_coins (calculate_max_raise st uid).2 uid).2
                  uid (-amount)).2.users uid
                  { q with bet := q.bet + amount, has_raised := true },
                pot := (adjust_coins (get_coins (calculate_max_raise st uid).2 uid).2
                  uid (-amount)).2.pot + amount,
                current_raise := amount } v = bet_of st v := by
              simp only [bet_of]
              rw [show alookup (aset (adjust_coins (get_coins (calculate_max_raise st uid).2 uid).2
                  uid (-amount)).2.users uid
                  { q with bet := q.bet + amount, has_raised := true }) v =
                alookup (adjust_coins (get_coins (calculate_max_raise st uid).2 uid).2
                  uid (-amount)).2.users v from alookup_aset_ne _ _ _ _ hv]
              have hc := alookup_strip_congr _ st.users hsA v
              cases h1 : alookup (adjust_coins (get_coins (calculate_max_raise st uid).2 uid).2
                  uid (-amount)).2.users v with
              | none =>
                rw [h1] at hc
                cases h2 : alookup st.users v with
                | none => rfl
                | some w => rw [h2] at hc; simp at hc
              | some w1 =>
                rw [h1] at hc
                cases h2 : alookup st.users v with
                | none => rw [h2] at hc; simp at hc
                | some w2 =>
                  rw [h2] at hc
                  simp only [Option.map_some'] at hc
                  exact (strip_coins_fields w1 w2 (by injection hc)).2.2.2.1
            rw [hbet]
            have hwal : walletOf { (adjust_coins (get_coins (calculate_max_raise st uid).2 uid).2
                uid (-amount)).2 with
                users := aset (adjust_coins (get_coins (calculate_max_raise st uid).2 uid).2
                  uid (-amount)).2.users uid
                  { q with bet := q.bet + amount, has_raised := true },
                pot := (adjust_coins (get_coins (calculate_max_raise st uid).2 uid).2
                  uid (-amount)).2.pot + amount,
                current_raise := amount } v =
                walletOf (adjust_coins (get_coins (calculate_max_raise st uid).2 uid).2
                  uid (-amount)).2 v := rfl
            rw [hwal, hwA v]
            simp [hv]

theorem respond_conserves (st : GameState) (uid : UserId) (action : String) (v : UserId)
    (h : (respond_to_raise st uid action).1 = true) :
    walletOf (respond_to_raise st uid action).2 v + bet_of (respond_to_raise st uid action).2 v =
      walletOf st v + bet_of st v := by
  simp only [respond_to_raise] at h ⊢
  cases hp : alookup st.users uid with
  | none => simp [hp] at h
  | some p =>
    simp only [hp] at h ⊢
    by_cases c1 : p.is_folded = true ∨ p.status ≠ Status.playing
    · rw [if_pos c1] at h; simp at h
    · rw [if_neg c1] at h ⊢
      by_cases c2 : st.current_raise ≤ 0
      · rw [if_pos c2] at h; simp at h
      · rw [if_neg c2] at h ⊢
        by_cases c3 : action = "call"
        · rw [if_pos c3] at h ⊢
          by_cases c4 : (get_coins st uid).1 < st.current_raise
          · rw [if_pos c4] at h; simp at h
          · rw [if_neg c4] at h ⊢
            have hsA : users_strip (adjust_coins (get_coins st uid).2
                uid (-st.current_raise)).2.users = users_strip st.users := by
              rw [users_strip_adjust_coins, users_strip_get_coins]
            obtain ⟨q, hq, hstrip⟩ :=
              alookup_strip_some st.users _ (by rw [hsA]) uid p hp
            rw [hq] at h ⊢
            have hqbet : q.bet = p.bet := (strip_coins_fields q p (hstrip.symm)).2.2.2.1
            have hwA : ∀ x, walletOf (adjust_coins (get_coins st uid).2
                uid (-st.current_raise)).2 x =
                walletOf st x + (if x = uid then -st.current_raise else 0) := by
              intro x
              rw [walletOf_adjust_coins]
              by_cases hx : x = uid
              · subst hx; simp [walletOf_get_coins]
              · simp [hx, walletOf_get_coins]
            by_cases hv : v = uid
            · subst hv
              have hbet : bet_of { (adjust_coins (get_coins st v).2 v (-st.current_raise)).2 with
                  users := aset (adjust_coins (get_coins st v).2 v (-st.current_raise)).2.users v
                    { q with bet := q.bet + st.current_raise },
                  pot := (adjust_coins (get_coins st v).2 v (-st.current_raise)).2.pot +
                    st.current_raise } v = q.bet + st.current_raise := by
                simp [bet_of, alookup_aset]
              rw [hbet]
              have hwal : walletOf { (adjust_coins (get_coins st v).2 v (-st.current_raise)).2 with
                  users := aset (adjust_coins (get_coins st v).2 v (-st.current_raise)).2.users v
                    { q with bet := q.bet + st.current_raise },
                  pot := (adjust_coins (get_coins st v).2 v (-st.current_raise)).2.pot +
                    st.current_raise } v =
                  walletOf (adjust_coins (get_coins st v).2 v (-st.current_raise)).2 v := rfl
              rw [hwal, hwA v]
              simp [bet_of, hp, hqbet]
              ring
            · have hbet : bet_of { (adjust_coins (get_coins st uid).2 uid (-st.current_raise)).2 with
                  users := aset (adjust_coins (get_coins st uid).2 uid
                    (-st.current_raise)).2.users uid
                    { q with bet := q.bet + st.current_raise },
                  pot := (adjust_coins (get_coins st uid).2 uid (-st.current_raise)).2.pot +
                    st.current_raise } v = bet_of st v := by
                simp only [bet_of]
                rw [show alookup (aset (adjust_coins (get_coins st uid).2 uid
                    (-st.current_raise)).2.users uid
                    { q with bet := q.bet + st.current_raise }) v =
                  alookup (adjust_coins (get_coins st uid).2 uid
                    (-st.current_raise)).2.users v from alookup_aset_ne _ _ _ _ hv]
                have hc := alookup_strip_congr _ st.users hsA v
                cases h1 : alookup (adjust_coins (get_coins st uid).2 uid
                    (-st.current_raise)).2.users v with
                | none =>
                  rw [h1] at hc
                  cases h2 : alookup st.users v with
                  | none => rfl
                  | some w => rw [h2] at hc; simp at hc
                | some w1 =>
                  rw [h1] at hc
                  cases h2 : alookup st.users v with
                  | none => rw [h2] at hc; simp at hc
                  | some w2 =>
                    rw [h2] at hc
                    simp only [Option.map_some'] at hc
                    exact (strip_coins_fields w1 w2 (by injection hc)).2.2.2.1
              rw [hbet]
              have hwal : walletOf { (adjust_coins (get_coins st uid).2 uid
                  (-st.current_raise)).2 with
                  users := aset (adjust_coins (get_coins st uid).2 uid
                    (-st.current_raise)).2.users uid
                    { q with bet := q.bet + st.current_raise },
                  pot := (adjust_coins (get_coins st uid).2 uid (-st.current_raise)).2.pot +
                    st.current_raise } v =
                  walletOf (adjust_coins (get_coins st uid).2 uid (-st.current_raise)).2 v := rfl
              rw [hwal, hwA v]
              simp [hv]
        · rw [if_neg c3] at h ⊢
          by_cases c5 : action = "fold"
          · rw [if_pos c5] at h ⊢
            have hwal : walletOf { st with
                users := aset st.users uid
                  { p with status := Status.fold, is_folded := true } } v =
                walletOf st v := rfl
            rw [hwal]
            by_cases hv : v = uid
            · subst hv
              simp [bet_of, hp, alookup_aset]
            · have : alookup (aset st.users uid
                  { p with status := Status.fold, is_folded := true }) v =
                  alookup st.users v := alookup_aset_ne _ _ _ _ hv
              simp [bet_of, this]
          · rw [if_neg c5] at h; simp at h

theorem deal_card_conserves (st : GameState) (uid v : UserId) :
    walletOf (deal_card st uid).2 v = walletOf st v ∧
    bet_of (deal_card st uid).2 v = bet_of st v := by
  cases hp : alookup st.users uid with
  | none => simp [deal_card, hp]
  | some p =>
    by_cases hplay : p.status = Status.playing
    · cases hL : st.deck.getLast? with
      | none =>
        rw [show deal_card st uid = (none, st) from by
          simp only [deal_card, hp]
          rw [if_neg (by simp [hplay]), hL]]
        exact ⟨rfl, rfl⟩
      | some card =>
        have hdeck : st.deck = st.deck.dropLast ++ [card] := by
          rcases st.deck.eq_nil_or_concat with hnil | ⟨l2, c2, hcon⟩
          · rw [hnil] at hL; simp at hL
          · rw [List.concat_eq_append] at hcon
            rw [hcon] at hL
            rw [show (l2 ++ [c2]).getLast? = some c2 from List.getLast?_concat _] at hL
            injection hL with hL2
            subst hL2
            rw [hcon, List.dropLast_concat]
        rw [deal_card_eq st uid p st.deck.dropLast card hp hplay hdeck]
        constructor
        · rfl
        · simp only [bet_of]
          by_cases hv : v = uid
          · subst hv
            rw [show alookup (aset st.users v
                (score_update { p with hand := p.hand ++ [card] })) v =
              some (score_update { p with hand := p.hand ++ [card] }) from alookup_aset _ _ _]
            rw [hp]
            simp [score_update]
            split <;> rfl
          · rw [alookup_aset_ne _ _ _ _ hv]
    · rw [show deal_card st uid = (none, st) from by
        simp only [deal_card, hp]
        rw [if_pos (by simp [hplay])]]
      exact ⟨rfl, rfl⟩

theorem alookup_aset_eq {α : Type} (l : List (String × α)) (k u : String) (v : α) :
    alookup (aset l k v) u = if u = k then some v else alookup l u := by
  by_cases h : u = k
  · subst h; simp [alookup_aset]
  · simp [h, alookup_aset_ne _ _ _ _ h]

theorem add_user_conserves (d : Nat) (st : GameState) (uid v : UserId)
    (hq : st.last_reset = some d) (h : (add_user d st uid).1 = true) :
    walletOf (add_user d st uid).2 v + bet_of (add_user d st uid).2 v =
      walletOf st v + bet_of st v := by
  obtain ⟨h1, h2, h3⟩ := (add_user_succeeds_iff d st uid hq).mp h
  obtain ⟨t, b, a, hsplit⟩ := exists_concat_two st.deck h1
  rw [add_user_run d st uid hq h1 h2 h3]
  rw [deal_initial_run
      { ensure_wallet st uid with
        users := aset st.users uid (join_player (walletOf st uid)),
        wallet_store :=
          aset (ensure_wallet st uid).wallet_store uid (walletOf st uid - 1),
        pot := st.pot + 1 }
      uid (join_player (walletOf st uid)) t b a
      (by simp [alookup_aset]) rfl rfl (by simp [hsplit])]
  rw [natural_step_eq _ uid
      { join_player (walletOf st uid) with hand := [a, b], score := scoreOfHand [a, b] }
      (by simp [alookup_aset])]
  by_cases hv : v = uid
  · subst hv
    split <;>
      simp [walletOf, bet_of, alookup_aset_eq, aset_aset, h2, join_player]
  · split <;>
      simp [walletOf, bet_of, alookup_aset_eq, aset_aset, hv,
        show alookup (ensure_wallet st uid).wallet_store v =
            alookup st.wallet_store v from by
          simp [ensure_wallet]
          split
          · rfl
          · exact alookup_aset_ne _ _ _ _ hv]

/-! ### Putting the resolution pipeline together -/

theorem resolve_round_run (newDeck : List Card) (st : GameState)
    (hrp : round_player_ids st ≠ []) :
    resolve_round newDeck st =
      (if survivors st = [] then
        resolve_refund newDeck (get_coins_list st (round_player_ids st)).2 (round_player_ids st)
          ((round_player_ids st).zip (get_coins_list st (round_player_ids st)).1)
      else
        resolve_winners newDeck (get_coins_list st (round_player_ids st)).2 (round_player_ids st)
          ((round_player_ids st).zip (get_coins_list st (round_player_ids st)).1)) := by
  simp only [resolve_round]
  rw [if_neg hrp]
  have hs : survivors (get_coins_list st (round_player_ids st)).2 = survivors st :=
    survivors_strip_congr _ _ (users_strip_get_coins_list _ _)
  rw [hs]
  cases hsv : survivors st with
  | nil => simp
  | cons a arest => simp

theorem sum_extra (k : Nat) (share r : Int) :
    ((List.range k).map (fun (i : Nat) => share + if (i : Int) < r then 1 else 0)).sum =
      k * share + min (max r 0) (k : Int) := by
  induction k with
  | zero => simp [min_eq_right (le_max_right r 0)]
  | succ n ih =>
    rw [List.range_succ, List.map_append, List.sum_append, ih]
    simp only [List.map_cons, List.map_nil, List.sum_cons, List.sum_nil, add_zero]
    by_cases hc : (n : Int) < r
    · rw [if_pos hc]
      have hm1 : min (max r 0) (n : Int) = (n : Int) :=
        min_eq_right (le_trans (by omega) (le_max_left r 0))
      have hm2 : min (max r 0) ((n : Int) + 1) = (n : Int) + 1 :=
        min_eq_right (le_trans (by omega) (le_max_left r 0))
      push_cast
      rw [hm1, hm2]
      ring
    · rw [if_neg hc]
      have hr0 : max r 0 ≤ (n : Int) := max_le (by omega) (Int.ofNat_nonneg n)
      have hm1 : min (max r 0) (n : Int) = max r 0 := min_eq_left hr0
      have hm2 : min (max r 0) ((n : Int) + 1) = max r 0 :=
        min_eq_left (le_trans hr0 (by omega))
      push_cast
      rw [hm1, hm2]
      ring

theorem pot_split_parts (pot : Int) (k : Nat) (hk : 0 < k) :
    ((List.range k).map (fun (i : Nat) =>
        Int.fdiv pot k + if (i : Int) < Int.fmod pot k then 1 else 0)).sum = pot := by
  rw [sum_extra]
  have hkz : (0 : Int) < (k : Int) := by exact_mod_cast hk
  have h0 : 0 ≤ Int.fmod pot k := Int.fmod_nonneg' pot hkz
  have h1 : Int.fmod pot k < k := Int.fmod_lt_of_pos pot hkz
  rw [max_eq_left h0, min_eq_left (le_of_lt h1)]
  exact Int.fdiv_add_fmod pot k

theorem foldl_max_attained (l : List Nat) (x : Nat) :
    l.foldl max x = x ∨ l.foldl max x ∈ l := by
  induction l generalizing x with
  | nil => exact Or.inl rfl
  | cons y t ih =>
    simp only [List.foldl_cons]
    rcases ih (max x y) with h | h
    · by_cases hxy : y ≤ x
      · left
        rw [h, max_eq_left hxy]
      · right
        rw [List.mem_cons]
        left
        rw [h, max_eq_right (by omega)]
    · right
      exact List.mem_cons_of_mem y h

theorem winners_ne_nil (st : GameState) (hsur : survivors st ≠ []) :
    winners_of st ≠ [] := by
  cases hS : survivors st with
  | nil => exact absurd hS hsur
  | cons a arest =>
    have htop : top_score st = (arest.map (score_of st)).foldl max (score_of st a) := by
      simp [top_score, hS]
    rcases foldl_max_attained (arest.map (score_of st)) (score_of st a) with h | h
    · have ha : a ∈ winners_of st := by
        apply List.mem_filter.mpr
        refine ⟨hS ▸ List.mem_cons_self a arest, ?_⟩
        simp [htop, h]
      exact List.ne_nil_of_mem ha
    · obtain ⟨u, hu, hsu⟩ := List.mem_map.mp h
      have ha : u ∈ winners_of st := by
        apply List.mem_filter.mpr
        refine ⟨hS ▸ List.mem_cons_of_mem a hu, ?_⟩
        simp [htop, hsu]
      exact List.ne_nil_of_mem ha

theorem round_ids_ne_nil_of_sur (st : GameState) (hsur : survivors st ≠ []) :
    round_player_ids st ≠ [] := by
  cases hS : survivors st with
  | nil => exact absurd hS hsur
  | cons a arest =>
    exact List.ne_nil_of_mem
      (mem_survivors_mem_round st a (hS ▸ List.mem_cons_self a arest))

/-- C1: with at least one survivor, `resolve_round` pays the `j`-th of the
`k` tied top-score winners (in insertion order) exactly `pot fdiv k` coins
plus one extra coin when `j < pot fmod k`, on top of their natural bonus if
one is due; and those `k` shares sum exactly to the pot. -/
theorem pot_split_spec (newDeck : List Card) (st : GameState)
    (hnd : (st.users.map Prod.fst).Nodup)
    (hsur : survivors st ≠ []) :
    (∀ j (hj : j < (winners_of st).length),
      walletOf (resolve_round newDeck st).2.2 ((winners_of st).get ⟨j, hj⟩) =
        walletOf st ((winners_of st).get ⟨j, hj⟩) +
          Int.fdiv st.pot ((winners_of st).length : Int) +
          (if (j : Int) < Int.fmod st.pot ((winners_of st).length : Int) then 1 else 0) +
          bonus_due st ((winners_of st).get ⟨j, hj⟩)) ∧
    ((List.range (winners_of st).length).map (fun (j : Nat) =>
        Int.fdiv st.pot ((winners_of st).length : Int) +
          if (j : Int) < Int.fmod st.pot ((winners_of st).length : Int) then 1 else 0)).sum
      = st.pot := by
  have hrp := round_ids_ne_nil_of_sur st hsur
  have hndrp := round_ids_nodup st hnd
  have hndw := winners_nodup st hnd
  constructor
  · intro j hj
    rw [resolve_round_run newDeck st hrp, if_neg hsur]
    simp only [resolve_winners]
    have hstripA : users_strip (get_coins_list st (round_player_ids st)).2.users =
        users_strip st.users := users_strip_get_coins_list _ st
    have hwinA : winners_of (get_coins_list st (round_player_ids st)).2 = winners_of st :=
      winners_of_strip_congr _ _ hstripA
    have hpotA : (get_coins_list st (round_player_ids st)).2.pot = st.pot :=
      get_coins_list_pot _ st
    rw [hwinA, hpotA]
    have hstripB : users_strip (pay_winners (get_coins_list st (round_player_ids st)).2
        (winners_of st) (Int.fdiv st.pot ((winners_of st).length : Int))
        (Int.fmod st.pot ((winners_of st).length : Int)) 0).users =
        users_strip st.users := by
      rw [pay_winners_users_strip, hstripA]
    obtain ⟨hbonW, hbonS, -⟩ := pay_bonuses_spec (round_player_ids st) hndrp
      (pay_winners (get_coins_list st (round_player_ids st)).2
        (winners_of st) (Int.fdiv st.pot ((winners_of st).length : Int))
        (Int.fmod st.pot ((winners_of st).length : Int)) 0)
    have hstripC : users_strip (pay_bonuses (pay_winners
        (get_coins_list st (round_player_ids st)).2 (winners_of st)
        (Int.fdiv st.pot ((winners_of st).length : Int))
        (Int.fmod st.pot ((winners_of st).length : Int)) 0)
        (round_player_ids st)).users = users_strip st.users := by
      rw [hbonS, hstripB]
    have hseatedC : ∀ u ∈ round_player_ids st,
        (alookup (pay_bonuses (pay_winners
          (get_coins_list st (round_player_ids st)).2 (winners_of st)
          (Int.fdiv st.pot ((winners_of st).length : Int))
          (Int.fmod st.pot ((winners_of st).length : Int)) 0)
          (round_player_ids st)).users u).isSome := by
      intro u hu
      rw [(lookup_strip_fields_congr _ st hstripC u).2.2.2.2]
      obtain ⟨p, hp, -⟩ := mem_round_elim st u hnd hu
      simp [hp]
    have hW := (build_results_spec (round_player_ids st) _
      ((round_player_ids st).zip (get_coins_list st (round_player_ids st)).1) hseatedC).2
    rw [show walletOf (reset_game newDeck (build_results (pay_bonuses (pay_winners
        (get_coins_list st (round_player_ids st)).2 (winners_of st)
        (Int.fdiv st.pot ((winners_of st).length : Int))
        (Int.fmod st.pot ((winners_of st).length : Int)) 0) (round_player_ids st))
        (round_player_ids st)
        ((round_player_ids st).zip (get_coins_list st (round_player_ids st)).1)).2)
        ((winners_of st).get ⟨j, hj⟩) =
      walletOf (build_results (pay_bonuses (pay_winners
        (get_coins_list st (round_player_ids st)).2 (winners_of st)
        (Int.fdiv st.pot ((winners_of st).length : Int))
        (Int.fmod st.pot ((winners_of st).length : Int)) 0) (round_player_ids st))
        (round_player_ids st)
        ((round_player_ids st).zip (get_coins_list st (round_player_ids st)).1)).2
        ((winners_of st).get ⟨j, hj⟩) from rfl]
    rw [hW ((winners_of st).get ⟨j, hj⟩)]
    rw [hbonW ((winners_of st).get ⟨j, hj⟩)]
    have hwrp : (winners_of st).get ⟨j, hj⟩ ∈ round_player_ids st :=
      mem_survivors_mem_round st _
        (mem_winners_mem_survivors st _ ((winners_of st).get_mem j hj))
    rw [if_pos hwrp]
    rw [(lookup_strip_fields_congr _ st hstripB ((winners_of st).get ⟨j, hj⟩)).2.1]
    rw [pay_winners_walletOf_get (winners_of st) hndw _ _ _ 0 j hj]
    rw [walletOf_get_coins_list]
    rw [show (0 + j : Nat) = j from by omega]
  · exact pot_split_parts st.pot (winners_of st).length
      (List.length_pos.mpr (winners_ne_nil st hsur))

/-- C7 (amended): in both resolution branches the summary lists exactly the
in-round players, in order; each entry reports the player's pre-reset hand,
score and recorded natural bonus, the final balance, and a coin change equal
to the final balance minus the balance at the moment `resolve_round` was
invoked — i.e. after the round's ante and raises had already been deducted,
not the pre-ante balance. -/
theorem resolve_results_spec (newDeck : List Card) (st : GameState)
    (hnd : (st.users.map Prod.fst).Nodup)
    (hrp : round_player_ids st ≠ []) :
    (resolve_round newDeck st).2.1 =
      (round_player_ids st).map (fun u =>
        { user_id := u,
          hand := hand_to_string (hand_of st u),
          score := score_of st u,
          final_coins := walletOf (resolve_round newDeck st).2.2 u,
          change := walletOf (resolve_round newDeck st).2.2 u - walletOf st u,
          natural_bonus := bonus_field st u }) := by
  have hstripA : users_strip (get_coins_list st (round_player_ids st)).2.users =
      users_strip st.users := users_strip_get_coins_list _ st
  have hcbA : users_strip_cb (get_coins_list st (round_player_ids st)).2.users =
      users_strip_cb st.users := users_strip_cb_of_strip _ _ hstripA
  have hndrp := round_ids_nodup st hnd
  have hz : ∀ u ∈ round_player_ids st,
      alookup ((round_player_ids st).zip (get_coins_list st (round_player_ids st)).1) u =
        some (walletOf st u) := by
    intro u hu
    rw [get_coins_list_fst]
    exact alookup_zip_map _ _ u hu
  rw [resolve_round_run newDeck st hrp]
  by_cases hsur : survivors st = []
  · rw [if_pos hsur]
    have hcbB : users_strip_cb ({ refund_bets (get_coins_list st (round_player_ids st)).2
        (round_player_ids st) with pot := 0 }).users = users_strip_cb st.users := by
      show users_strip_cb (refund_bets (get_coins_list st (round_player_ids st)).2
        (round_player_ids st)).users = users_strip_cb st.users
      rw [refund_bets_users_strip_cb, hcbA]
    have hseatedC : ∀ u ∈ round_player_ids st,
        (alookup ({ refund_bets (get_coins_list st (round_player_ids st)).2
          (round_player_ids st) with pot := 0 }).users u).isSome := by
      intro u hu
      obtain ⟨p, hp, -⟩ := mem_round_elim st u hnd hu
      have hiso := (lookup_cb_fields_congr { refund_bets
        (get_coins_list st (round_player_ids st)).2 (round_player_ids st) with
        pot := 0 } st hcbB u).2.2.2.2
      rw [hiso, hp]
      rfl
    obtain ⟨hbr1, hbr2⟩ := build_results_spec (round_player_ids st)
      { refund_bets (get_coins_list st (round_player_ids st)).2 (round_player_ids st) with
        pot := 0 }
      ((round_player_ids st).zip (get_coins_list st (round_player_ids st)).1) hseatedC
    have hL : (resolve_refund newDeck (get_coins_list st (round_player_ids st)).2
        (round_player_ids st)
        ((round_player_ids st).zip (get_coins_list st (round_player_ids st)).1)).2.1 =
      (build_results
        { refund_bets (get_coins_list st (round_player_ids st)).2 (round_player_ids st) with
          pot := 0 }
        (round_player_ids st)
        ((round_player_ids st).zip (get_coins_list st (round_player_ids st)).1)).1 := rfl
    rw [hL, hbr1]
    refine List.map_congr_left (fun u hu => ?_)
    obtain ⟨hh, hsc, hbf, -, -⟩ := lookup_cb_fields_congr
      { refund_bets (get_coins_list st (round_player_ids st)).2 (round_player_ids st) with
        pot := 0 } st hcbB u
    have hfin : walletOf (resolve_refund newDeck (get_coins_list st (round_player_ids st)).2
        (round_player_ids st)
        ((round_player_ids st).zip (get_coins_list st (round_player_ids st)).1)).2.2 u =
      walletOf { refund_bets (get_coins_list st (round_player_ids st)).2
        (round_player_ids st) with pot := 0 } u := hbr2 u
    simp only [summary_entry, hh, hsc, hbf, hz u hu, Option.getD_some, hfin]
  · rw [if_neg hsur]
    have hstripB : users_strip (pay_winners (get_coins_list st (round_player_ids st)).2
        (winners_of (get_coins_list st (round_player_ids st)).2)
        (Int.fdiv (get_coins_list st (round_player_ids st)).2.pot
          ((winners_of (get_coins_list st (round_player_ids st)).2).length : Int))
        (Int.fmod (get_coins_list st (round_player_ids st)).2.pot
          ((winners_of (get_coins_list st (round_player_ids st)).2).length : Int)) 0).users =
        users_strip st.users := by
      rw [pay_winners_users_strip, hstripA]
    obtain ⟨-, hbonS, -⟩ := pay_bonuses_spec (round_player_ids st) hndrp
      (pay_winners (get_coins_list st (round_player_ids st)).2
        (winners_of (get_coins_list st (round_player_ids st)).2)
        (Int.fdiv (get_coins_list st (round_player_ids st)).2.pot
          ((winners_of (get_coins_list st (round_player_ids st)).2).length : Int))
        (Int.fmod (get_coins_list st (round_player_ids st)).2.pot
          ((winners_of (get_coins_list st (round_player_ids st)).2).length : Int)) 0)
    have hstripC : users_strip (pay_bonuses (pay_winners
        (get_coins_list st (round_player_ids st)).2
        (winners_of (get_coins_list st (round_player_ids st)).2)
        (Int.fdiv (get_coins_list st (round_player_ids st)).2.pot
          ((winners_of (get_coins_list st (round_player_ids st)).2).length : Int))
        (Int.fmod (get_coins_list st (round_player_ids st)).2.pot
          ((winners_of (get_coins_list st (round_player_ids st)).2).length : Int)) 0)
        (round_player_ids st)).users = users_strip st.users := by
      rw [hbonS, hstripB]
    have hcbC := users_strip_cb_of_strip _ _ hstripC
    have hseatedC : ∀ u ∈ round_player_ids st,
        (alookup (pay_bonuses (pay_winners
          (get_coins_list st (round_player_ids st)).2
          (winners_of (get_coins_list st (round_player_ids st)).2)
          (Int.fdiv (get_coins_list st (round_player_ids st)).2.pot
            ((winners_of (get_coins_list st (round_player_ids st)).2).length : Int))
          (Int.fmod (get_coins_list st (round_player_ids st)).2.pot
            ((winners_of (get_coins_list st (round_player_ids st)).2).length : Int)) 0)
          (round_player_ids st)).users u).isSome := by
      intro u hu
      obtain ⟨p, hp, -⟩ := mem_round_elim st u hnd hu
      have hiso := (lookup_cb_fields_congr (pay_bonuses (pay_winners
        (get_coins_list st (round_player_ids st)).2
        (winners_of (get_coins_list st (round_player_ids st)).2)
        (Int.fdiv (get_coins_list st (round_player_ids st)).2.pot
          ((winners_of (get_coins_list st (round_player_ids st)).2).length : Int))
        (Int.fmod (get_coins_list st (round_player_ids st)).2.pot
          ((winners_of (get_coins_list st (round_player_ids st)).2).length : Int)) 0)
        (round_player_ids st)) st hcbC u).2.2.2.2
      rw [hiso, hp]
      rfl
    obtain ⟨hbr1, hbr2⟩ := build_results_spec (round_player_ids st)
      (pay_bonuses (pay_winners (get_coins_list st (round_player_ids st)).2
        (winners_of (get_coins_list st (round_player_ids st)).2)
        (Int.fdiv (get_coins_list st (round_player_ids st)).2.pot
          ((winners_of (get_coins_list st (round_player_ids st)).2).length : Int))
        (Int.fmod (get_coins_list st (round_player_ids st)).2.pot
          ((winners_of (get_coins_list st (round_player_ids st)).2).length : Int)) 0)
        (round_player_ids st))
      ((round_player_ids st).zip (get_coins_list st (round_player_ids st)).1) hseatedC
    have hL : (resolve_winners newDeck (get_coins_list st (round_player_ids st)).2
        (round_player_ids st)
        ((round_player_ids st).zip (get_coins_list st (round_player_ids st)).1)).2.1 =
      (build_results (pay_bonuses (pay_winners (get_coins_list st (round_player_ids st)).2
        (winners_of (get_coins_list st (round_player_ids st)).2)
        (Int.fdiv (get_coins_list st (round_player_ids st)).2.pot
          ((winners_of (get_coins_list st (round_player_ids st)).2).length : Int))
        (Int.fmod (get_coins_list st (round_player_ids st)).2.pot
          ((winners_of (get_coins_list st (round_player_ids st)).2).length : Int)) 0)
        (round_player_ids st))
        (round_player_ids st)
        ((round_player_ids st).zip (get_coins_list st (round_player_ids st)).1)).1 := rfl
    rw [hL, hbr1]
    refine List.map_congr_left (fun u hu => ?_)
    obtain ⟨hh, hsc, hbf, -, -⟩ := lookup_cb_fields_congr
      (pay_bonuses (pay_winners (get_coins_list st (round_player_ids st)).2
        (winners_of (get_coins_list st (round_player_ids st)).2)
        (Int.fdiv (get_coins_list st (round_player_ids st)).2.pot
          ((winners_of (get_coins_list st (round_player_ids st)).2).length : Int))
        (Int.fmod (get_coins_list st (round_player_ids st)).2.pot
          ((winners_of (get_coins_list st (round_player_ids st)).2).length : Int)) 0)
        (round_player_ids st)) st hcbC u
    have hfin : walletOf (resolve_winners newDeck (get_coins_list st (round_player_ids st)).2
        (round_player_ids st)
        ((round_player_ids st).zip (get_coins_list st (round_player_ids st)).1)).2.2 u =
      walletOf (pay_bonuses (pay_winners (get_coins_list st (round_player_ids st)).2
        (winners_of (get_coins_list st (round_player_ids st)).2)
        (Int.fdiv (get_coins_list st (round_player_ids st)).2.pot
          ((winners_of (get_coins_list st (round_player_ids st)).2).length : Int))
        (Int.fmod (get_coins_list st (round_player_ids st)).2.pot
          ((winners_of (get_coins_list st (round_player_ids st)).2).length : Int)) 0)
        (round_player_ids st)) u := hbr2 u
    simp only [summary_entry, hh, hsc, hbf, hz u hu, Option.getD_some, hfin]

def c7_state0 : GameState :=
  { deck := [⟨Suit.spades, Rank.r5⟩, ⟨Suit.hearts, Rank.r9⟩], users := [], pot := 0,
    current_raise := 0, initial_coins := 30, wallet_store := [("eve", 30)],
    last_reset := some 5 }

def c7_state1 : GameState := (add_user 5 c7_state0 "eve").2

def c7_state2 : GameState := user_stand c7_state1 "eve"

/-- Counterexample to C7 as stated: eve starts the round with 30 coins, pays
the 1-coin ante on joining, stands, and wins back the 1-coin pot, ending at
30 — a net round change of 0 — yet the summary reports a change of 1,
because the code subtracts the balance snapshotted at resolution time
(post-ante, 29), not the balance at the start of the round (30). -/
theorem resolve_results_change_cex :
    (add_user 5 c7_state0 "eve").1 = true ∧
    walletOf c7_state0 "eve" = 30 ∧
    walletOf c7_state2 "eve" = 29 ∧
    (resolve_round [] c7_state2).2.1.map (fun e => e.change) = [1] ∧
    walletOf (resolve_round [] c7_state2).2.2 "eve" - walletOf c7_state0 "eve" = 0 := by
  decide

/-- Witness for the amended C7, on the same one-player trace: the summary is
exactly the in-round players mapped to their pre-reset hand, score, bonus,
final balance, and final-minus-resolution-entry balance. -/
theorem resolve_results_spec_witness :
    (resolve_round [] c7_state2).2.1 =
      (round_player_ids c7_state2).map (fun u =>
        { user_id := u,
          hand := hand_to_string (hand_of c7_state2 u),
          score := score_of c7_state2 u,
          final_coins := walletOf (resolve_round [] c7_state2).2.2 u,
          change := walletOf (resolve_round [] c7_state2).2.2 u - walletOf c7_state2 u,
          natural_bonus := bonus_field c7_state2 u }) :=
  resolve_results_spec [] c7_state2 (by decide) (by decide)

/-- C2: when every in-round player is busted or folded, `resolve_round`
reports the no-winner message, refunds each in-round player's bet to their
wallet (leaving every other wallet unchanged), ends with pot 0, and pays no
natural bonus — each in-round final balance is the balance plus the bet,
which is exactly the balance before the ante and the raises were deducted,
since every successful engine operation preserves each player's
balance-plus-bet (and a draw changes neither). -/
theorem all_bust_refund_spec (newDeck : List Card) (st : GameState)
    (hnd : (st.users.map Prod.fst).Nodup)
    (hrp : round_player_ids st ≠ [])
    (hsur : survivors st = []) :
    ((resolve_round newDeck st).1 = "勝者なし、全員バーストしました。" ∧
     (resolve_round newDeck st).2.2.pot = 0 ∧
     (∀ u ∈ round_player_ids st,
       walletOf (resolve_round newDeck st).2.2 u = walletOf st u + bet_of st u) ∧
     (∀ v, v ∉ round_player_ids st →
       walletOf (resolve_round newDeck st).2.2 v = walletOf st v)) ∧
    ((∀ (d : Nat) (st0 : GameState) (uid w : UserId), st0.last_reset = some d →
        (add_user d st0 uid).1 = true →
        walletOf (add_user d st0 uid).2 w + bet_of (add_user d st0 uid).2 w =
          walletOf st0 w + bet_of st0 w) ∧
     (∀ (st0 : GameState) (uid w : UserId) (amount : Int),
        (start_raise st0 uid amount).1 = true →
        walletOf (start_raise st0 uid amount).2 w + bet_of (start_raise st0 uid amount).2 w =
          walletOf st0 w + bet_of st0 w) ∧
     (∀ (st0 : GameState) (uid w : UserId) (action : String),
        (respond_to_raise st0 uid action).1 = true →
        walletOf (respond_to_raise st0 uid action).2 w +
            bet_of (respond_to_raise st0 uid action).2 w =
          walletOf st0 w + bet_of st0 w) ∧
     (∀ (st0 : GameState) (uid w : UserId),
        walletOf (deal_card st0 uid).2 w = walletOf st0 w ∧
        bet_of (deal_card st0 uid).2 w = bet_of st0 w)) := by
  have hrun := resolve_round_run newDeck st hrp
  have hstripA : users_strip (get_coins_list st (round_player_ids st)).2.users =
      users_strip st.users := users_strip_get_coins_list _ st
  have hcbA : users_strip_cb (get_coins_list st (round_player_ids st)).2.users =
      users_strip_cb st.users := users_strip_cb_of_strip _ _ hstripA
  have hndrp := round_ids_nodup st hnd
  obtain ⟨hrw, hrpot⟩ := refund_bets_spec (round_player_ids st) hndrp
    (get_coins_list st (round_player_ids st)).2
  have hcbB : users_strip_cb (refund_bets (get_coins_list st (round_player_ids st)).2
      (round_player_ids st)).users = users_strip_cb st.users := by
    rw [refund_bets_users_strip_cb, hcbA]
  have hseatedC : ∀ u ∈ round_player_ids st,
      (alookup ({ refund_bets (get_coins_list st (round_player_ids st)).2
        (round_player_ids st) with pot := 0 }).users u).isSome := by
    intro u hu
    obtain ⟨p, hp, -⟩ := mem_round_elim st u hnd hu
    have hiso := (lookup_cb_fields_congr { refund_bets
      (get_coins_list st (round_player_ids st)).2 (round_player_ids st) with
      pot := 0 } st hcbB u).2.2.2.2
    rw [hiso, hp]
    rfl
  obtain ⟨hbr1, hbr2⟩ := build_results_spec (round_player_ids st)
    { refund_bets (get_coins_list st (round_player_ids st)).2 (round_player_ids st) with
      pot := 0 }
    ((round_player_ids st).zip (get_coins_list st (round_player_ids st)).1) hseatedC
  have e1 : ∀ w, walletOf (resolve_round newDeck st).2.2 w =
      walletOf (refund_bets (get_coins_list st (round_player_ids st)).2
        (round_player_ids st)) w := by
    intro w
    rw [hrun, if_pos hsur]
    simp only [resolve_refund]
    exact hbr2 w
  refine ⟨⟨?_, ?_, ?_, ?_⟩, ?_, ?_, ?_, ?_⟩
  · rw [hrun, if_pos hsur]; rfl
  · rw [hrun, if_pos hsur]; rfl
  · intro u hu
    rw [e1 u, hrw u, if_pos hu, walletOf_get_coins_list]
    rw [(lookup_strip_fields_congr _ st hstripA u).1]
  · intro v hv
    rw [e1 v, hrw v, if_neg hv, walletOf_get_coins_list, add_zero]
  · exact fun d st0 uid w hq h => add_user_conserves d st0 uid w hq h
  · exact fun st0 uid w amount h => start_raise_conserves st0 uid amount w h
  · exact fun st0 uid w action h => respond_conserves st0 uid action w h
  · exact fun st0 uid w => deal_card_conserves st0 uid w

def c2_pa : PlayerState :=
  { hand := [⟨Suit.spades, Rank.r10⟩, ⟨Suit.hearts, Rank.queen⟩, ⟨Suit.clubs, Rank.r5⟩],
    score := 25, status := Status.bust, coins := 9, bet := 1, has_raised := false,
    is_folded := true, natural_bonus := 0 }

def c2_pb : PlayerState :=
  { hand := [⟨Suit.clubs, Rank.r10⟩, ⟨Suit.diamonds, Rank.king⟩, ⟨Suit.hearts, Rank.r3⟩],
    score := 23, status := Status.bust, coins := 18, bet := 2, has_raised := false,
    is_folded := true, natural_bonus := 0 }

def c2_state : GameState :=
  { deck := [], users := [("a", c2_pa), ("b", c2_pb)], pot := 3, current_raise := 0,
    initial_coins := 30, wallet_store := [("a", 9), ("b", 18)], last_reset := some 0 }

/-- Witness for C2: both players busted with bets 1 and 2; resolution
reports no winner, refunds the bets (9 becomes 10), zeroes the pot, and a
bystander's balance is untouched. -/
theorem all_bust_refund_spec_witness :
    (resolve_round [] c2_state).1 = "勝者なし、全員バーストしました。" ∧
    (resolve_round [] c2_state).2.2.pot = 0 ∧
    walletOf (resolve_round [] c2_state).2.2 "a" = 10 ∧
    walletOf (resolve_round [] c2_state).2.2 "z" = walletOf c2_state "z" := by
  have h := all_bust_refund_spec [] c2_state (by decide) (by decide) (by decide)
  refine ⟨h.1.1, h.1.2.1, ?_, h.1.2.2.2 "z" (by decide)⟩
  have ha := h.1.2.2.1 "a" (by decide)
  rw [ha]; decide

def c1_pa : PlayerState :=
  { hand := [⟨Suit.spades, Rank.r10⟩, ⟨Suit.hearts, Rank.r9⟩], score := 19,
    status := Status.stand, coins := 10, bet := 1, has_raised := false,
    is_folded := false, natural_bonus := 0 }

def c1_pb : PlayerState :=
  { hand := [⟨Suit.clubs, Rank.r10⟩, ⟨Suit.diamonds, Rank.r9⟩], score := 19,
    status := Status.stand, coins := 20, bet := 1, has_raised := false,
    is_folded := false, natural_bonus := 0 }

def c1_state : GameState :=
  { deck := [], users := [("a", c1_pa), ("b", c1_pb)], pot := 5, current_raise := 0,
    initial_coins := 30, wallet_store := [("a", 10), ("b", 20)], last_reset := some 0 }

/-- Witness for C1: two players tie at 19 over a pot of 5; the winner that
joined first receives 3, the other 2, and the shares sum to the pot. -/
theorem pot_split_spec_witness :
    walletOf (resolve_round [] c1_state).2.2 "a" = 13 ∧
    walletOf (resolve_round [] c1_state).2.2 "b" = 22 ∧
    ((List.range (winners_of c1_state).length).map (fun (j : Nat) =>
        Int.fdiv c1_state.pot ((winners_of c1_state).length : Int) +
          if (j : Int) < Int.fmod c1_state.pot ((winners_of c1_state).length : Int)
          then 1 else 0)).sum = c1_state.pot := by
  have h := pot_split_spec [] c1_state (by decide) (by decide)
  refine ⟨?_, ?_, h.2⟩
  · have h0 := h.1 0 (by decide)
    have e : (winners_of c1_state).get ⟨0, by decide⟩ = "a" := by decide
    rw [e] at h0
    rw [h0]; decide
  · have h1 := h.1 1 (by decide)
    have e : (winners_of c1_state).get ⟨1, by decide⟩ = "b" := by decide
    rw [e] at h1
    rw [h1]; decide

end BJ
